import Mathlib

/-!
Shallow embedding of the entity-resolution and graph-upsert pipeline of
src/backend/ner.py, together with the page-extraction loop of
src/scripts/parse_pdf.py, and proofs of the specified properties.

Python strings are modelled as lists of characters (abbreviated Str below).
The NER model (spaCy) and the graph store (Neo4j) are external collaborators:
the mentions a page yields are taken as input, and the store is modelled as an
explicit association structure on which the Cypher templates UPSERT_ENTITY and
UPSERT_EDGE act with their documented MERGE / SET semantics.
-/

/-- Python strings are modelled as lists of characters. -/
abbrev Str := List Char

/-- Character list of a Lean string literal (used to write concrete inputs). -/
def str (s : String) : Str := s.data

/-- Whitespace test of Python str.split() / str.strip(), restricted to the ASCII
whitespace characters: space (32), tab (9), newline (10), carriage return (13),
vertical tab (11), form feed (12). -/
def isPySpace (c : Char) : Bool :=
  c.toNat = 32 || c.toNat = 9 || c.toNat = 10 || c.toNat = 13 ||
    c.toNat = 11 || c.toNat = 12

/-- Worker for Python str.split(): scans the characters, accumulating the
current token in reverse; whitespace flushes the accumulated token. -/
def splitAux : Str → Str → List Str
  | [], acc => if acc = [] then [] else [acc.reverse]
  | c :: cs, acc =>
    if isPySpace c then
      if acc = [] then splitAux cs [] else acc.reverse :: splitAux cs []
    else splitAux cs (c :: acc)

/-- Python str.split() with no argument: split on whitespace runs, discarding
empty pieces. -/
def pySplit (s : Str) : List Str := splitAux s []

/-- Python str.strip(): drop leading and trailing whitespace. -/
def pyStrip (s : Str) : Str :=
  ((s.dropWhile isPySpace).reverse.dropWhile isPySpace).reverse

/-- Python " ".join(tokens). -/
def joinSpace : List Str → Str
  | [] => []
  | [t] => t
  | t :: ts => t ++ ' ' :: joinSpace ts

/-- Python str.lower(), on the ASCII range (Char.toLower lowers exactly the
code points 65-90, which models str.lower() on ASCII text). -/
def pyLower (s : Str) : Str := s.map Char.toLower

/-- ner.py norm_text: return " ".join(s.strip().split()). -/
def norm_text (s : Str) : Str := joinSpace (pySplit (pyStrip s))

/-- ner.py make_entity_id: return f"{ent_type}:{norm_text(name).lower()}". -/
def make_entity_id (ent_type name : Str) : Str :=
  ent_type ++ ':' :: pyLower (norm_text name)

/-- ner.py ALLOWED_TYPES = {"PERSON", "LOC"}. -/
def ALLOWED_TYPES : List Str := [str "PERSON", str "LOC"]

/-- ner.py LABEL_MAP = {"PERSON": "Person", "LOC": "Location"}. -/
def LABEL_MAP : List (Str × Str) :=
  [(str "PERSON", str "Person"), (str "LOC", str "Location")]

/-- First-match lookup in an association list (Python dict access / the
key-match of a Cypher MERGE). -/
def alookup {κ ν : Type} [DecidableEq κ] : List (κ × ν) → κ → Option ν
  | [], _ => none
  | kv :: rest, k => if kv.1 = k then some kv.2 else alookup rest k

/-- Update every entry holding the given key (the SET clause applied to each
row matched by a MERGE). -/
def aupdate {κ ν : Type} [DecidableEq κ] (f : ν → ν) (k : κ) :
    List (κ × ν) → List (κ × ν)
  | [] => []
  | kv :: rest =>
    if kv.1 = k then (kv.1, f kv.2) :: aupdate f k rest
    else kv :: aupdate f k rest

/-- ner.py main: label = LABEL_MAP.get(e["type"], "Person"). -/
def labelFor (ty : Str) : Str := (alookup LABEL_MAP ty).getD (str "Person")

/-- ner.py REF_SEP = "|||". -/
def REF_SEP : Str := str "|||"

/-- One input page record as consumed by ner.py main (the JSON fields it
reads); page_number holds the f-string rendering of the JSON value, and a
missing field renders as the empty string per dict.get(key, ''). -/
structure Page where
  doc_id : Str
  page_id : Str
  page_number : Str
  source_uri : Str
  text : Str
deriving DecidableEq

/-- ner.py make_ref_simple: f-string "{doc_id}|{page_id}|{source_uri}". -/
def make_ref_simple (p : Page) : Str :=
  p.doc_id ++ '|' :: p.page_id ++ '|' :: p.source_uri

/-- ner.py make_ref: metadata "{doc_id}|{page_id}|{page_number}|{source_uri}"
followed by REF_SEP and the snippet. -/
def make_ref (p : Page) (snippet : Str) : Str :=
  (p.doc_id ++ '|' :: p.page_id ++ '|' :: p.page_number ++ '|' :: p.source_uri)
    ++ REF_SEP ++ snippet

/-- One typed span produced by the NER collaborator for a page, paired with
the context snippet that get_snippet_for_entity extracts for it from the
spaCy document (sentence segmentation is external, so the snippet is part of
the collaborator's output here). -/
structure Mention where
  label : Str
  text : Str
  snippet : Str
deriving DecidableEq

/-- The per-page entity-contribution record built in ner.py main's dedup loop:
{"entity_id": eid, "type": ent.label_, "name": norm_text(ent.text),
"ref": make_ref(page, snippet)}. -/
structure Entity where
  entity_id : Str
  type : Str
  name : Str
  ref : Str
deriving DecidableEq

/-- The record ner.py main builds for a kept mention. -/
def mkEntity (p : Page) (m : Mention) : Entity :=
  { entity_id := make_entity_id m.label m.text
    type := m.label
    name := norm_text m.text
    ref := make_ref p m.snippet }

/-- One iteration of ner.py main's dedup loop: drop mentions whose label is
outside ALLOWED_TYPES, then unique.setdefault(eid, record). -/
def addMention (p : Page) (u : List (Str × Entity)) (m : Mention) :
    List (Str × Entity) :=
  if ALLOWED_TYPES.contains m.label then
    match alookup u (make_entity_id m.label m.text) with
    | some _ => u
    | none => u ++ [(make_entity_id m.label m.text, mkEntity p m)]
  else u

/-- ner.py main's per-page dict "unique", as an insertion-ordered association
list (Python dicts preserve insertion order). -/
def uniqueMap (p : Page) (ms : List Mention) : List (Str × Entity) :=
  ms.foldl (addMention p) []

/-- ner.py main: eids = sorted(unique.keys()), ascending lexicographic order
(insertion sort is a stable sort, and the keys are pairwise distinct, so it
agrees with Python's sorted). -/
def sortedEids (u : List (Str × Entity)) : List Str :=
  List.insertionSort (· ≤ ·) (u.map Prod.fst)

/-- itertools.combinations(l, 2): ordered pairs of elements with the first
strictly earlier in the list. -/
def combos {α : Type} : List α → List (α × α)
  | [] => []
  | x :: xs => xs.map (fun y => (x, y)) ++ combos xs

/-- One element of the $pairs batch: {"a_id": a, "b_id": b, "ref": page_ref}. -/
structure PairRec where
  a_id : Str
  b_id : Str
  ref : Str
deriving DecidableEq

/-- ner.py main: the pair batch for one page. -/
def mkPairs (p : Page) (u : List (Str × Entity)) : List PairRec :=
  (combos (sortedEids u)).map
    (fun ab => { a_id := ab.1, b_id := ab.2, ref := make_ref_simple p })

/-- A Neo4j node key: (label, entity_id). MERGE (n:LABEL {entity_id: ...})
matches on both. -/
abbrev NodeKey := Str × Str

/-- The node properties UPSERT_ENTITY maintains. -/
structure NodeRec where
  name : Str
  refs : List Str
deriving DecidableEq

/-- The relationship properties UPSERT_EDGE maintains. -/
structure EdgeRec where
  count : Nat
  refs : List Str
deriving DecidableEq

/-- The graph store: nodes keyed by (label, entity_id), directed RELATES_TO
edges keyed by their endpoint node keys. -/
structure Store where
  nodes : List (NodeKey × NodeRec)
  edges : List ((NodeKey × NodeKey) × EdgeRec)
deriving DecidableEq

def emptyStore : Store := { nodes := [], edges := [] }

/-- One row of UPSERT_ENTITY: MERGE (n:LABEL {entity_id: e.entity_id}) then
SET n.name = e.name, n.refs = coalesce(n.refs, []) + e.ref. -/
def upsertNode (lbl : Str) (e : Entity) (s : Store) : Store :=
  match alookup s.nodes (lbl, e.entity_id) with
  | some _ =>
    { s with nodes := aupdate (fun n => { name := e.name, refs := n.refs ++ [e.ref] }) (lbl, e.entity_id) s.nodes }
  | none =>
    { s with nodes := s.nodes ++ [((lbl, e.entity_id), { name := e.name, refs := [e.ref] })] }

/-- UPSERT_ENTITY: UNWIND $entities AS e, applied row by row. -/
def upsertEntities (lbl : Str) (es : List Entity) (s : Store) : Store :=
  es.foldl (fun s e => upsertNode lbl e s) s

/-- One iteration of ner.py main's by_label grouping:
by_label.setdefault(label, []).append(e). -/
def addGroup (gs : List (Str × List Entity)) (lbl : Str) (e : Entity) :
    List (Str × List Entity) :=
  match alookup gs lbl with
  | some _ => aupdate (fun es => es ++ [e]) lbl gs
  | none => gs ++ [(lbl, [e])]

/-- ner.py main's by_label dict, insertion ordered. -/
def byLabel (es : List Entity) : List (Str × List Entity) :=
  es.foldl (fun gs e => addGroup gs (labelFor e.type) e) []

/-- One merged row of UPSERT_EDGE: MERGE (a)-[r:RELATES_TO]->(b) for a
specific matched node pair, then SET r.count = coalesce(r.count, 0) + 1 and
SET r.refs = coalesce(r.refs, []) + p.ref. -/
def upsertEdgeRow (ref : Str) (s : Store) (ka kb : NodeKey) : Store :=
  match alookup s.edges (ka, kb) with
  | some _ =>
    { s with edges := aupdate (fun r => { count := r.count + 1, refs := r.refs ++ [ref] }) (ka, kb) s.edges }
  | none =>
    { s with edges := s.edges ++ [((ka, kb), { count := 1, refs := [ref] })] }

/-- One pair row of UPSERT_EDGE: MATCH (a) WHERE a.entity_id = p.a_id and
MATCH (b) WHERE b.entity_id = p.b_id are label-agnostic, so every node whose
entity_id property matches contributes a row; the MERGE runs per matched
combination. -/
def upsertPair (s : Store) (p : PairRec) : Store :=
  let ks := s.nodes.map Prod.fst
  let as := ks.filter (fun k => decide (k.2 = p.a_id))
  let bs := ks.filter (fun k => decide (k.2 = p.b_id))
  as.foldl (fun s1 ka => bs.foldl (fun s2 kb => upsertEdgeRow p.ref s2 ka kb) s1) s

/-- UPSERT_EDGE: UNWIND $pairs AS p, applied pair by pair. -/
def upsertEdges (s : Store) (ps : List PairRec) : Store :=
  ps.foldl upsertPair s

/-- The body of ner.py main's per-page loop, given the mentions the NER
collaborator produced for the page: dedup, group by label, run UPSERT_ENTITY
per label group, derive pairs from the sorted entity ids, run UPSERT_EDGE. -/
def applyPage (s : Store) (p : Page) (ms : List Mention) : Store :=
  let u := uniqueMap p ms
  let entities := u.map Prod.snd
  if entities = [] then s
  else
    let s1 := (byLabel entities).foldl (fun s g => upsertEntities g.1 g.2 s) s
    let pairs := mkPairs p u
    if pairs = [] then s1 else upsertEdges s1 pairs

/-- ner.py main's loop over pages, with the fallible per-page work (the NER
call and the session.run writes) abstracted as a step that either yields the
next store state or raises: an exception propagates unchanged and stops the
run, exactly as an uncaught Python exception leaves main's for-loop. -/
def runPages (step : Store → Page → Except Str Store) :
    Store → List Page → Except Str Store
  | s, [] => Except.ok s
  | s, p :: ps =>
    match step s p with
    | Except.error e => Except.error e
    | Except.ok s2 => runPages step s2 ps

/-- Substring test: does needle occur contiguously inside hay? -/
def hasSub (needle hay : Str) : Bool :=
  hay.tails.any (fun t => needle.isPrefixOf t)

/-- Split a string at the first occurrence of the separator, if any. -/
def splitFirstOn (sep : Str) : Str → Option (Str × Str)
  | [] => none
  | c :: cs =>
    if sep.isPrefixOf (c :: cs) then some ([], (c :: cs).drop sep.length)
    else
      match splitFirstOn sep cs with
      | none => none
      | some (a, b) => some (c :: a, b)

/-- Python str.split(sep) for a one-character separator: keeps empty pieces. -/
def splitOnChar (sep : Char) : Str → List Str
  | [] => [[]]
  | c :: cs =>
    if c = sep then [] :: splitOnChar sep cs
    else
      match splitOnChar sep cs with
      | [] => [[c]]
      | t :: ts => (c :: t) :: ts

/-- Modelled from the spec: the decoder for node-level provenance references
is not in src/ (ner.py only documents the format "doc_id|page_id|page_number|
source_uri|||snippet"); the spec prescribes splitting on the first occurrence
of the two-character-distinct separator "|||" at most once, then splitting the
metadata part on "|", never re-splitting the snippet. -/
def decodeRef (ref : Str) : Option (Str × Str × Str × Str × Str) :=
  match splitFirstOn REF_SEP ref with
  | none => none
  | some (meta, snippet) =>
    match splitOnChar '|' meta with
    | [a, b, c, d] => some (a, b, c, d, snippet)
    | _ => none

/-- Does the string end in a pipe character? -/
def endsWithPipe : Str → Bool
  | [] => false
  | c :: cs => if cs = [] then decide (c = '|') else endsWithPipe cs

/-- Does the string contain three consecutive pipe characters? -/
def hasTriplePipe : Str → Bool
  | [] => false
  | c :: cs => (decide (c = '|') && decide (cs.take 2 = ['|', '|'])) || hasTriplePipe cs

/-- One page record emitted by parse_pdf (the fields the claims concern; the
extraction timestamp and the LLM summaries are external collaborator output
and are not modelled). -/
structure PdfPage where
  doc_id : Str
  source_type : Str
  source_uri : Str
  page_id : Str
  text : Str
  page_number : Nat
deriving DecidableEq

/-- Python f"{n:02d}" for a natural number: decimal digits, left-padded with
zeros to width two. -/
def fmt02 (n : Nat) : Str :=
  if n < 10 then '0' :: Nat.toDigits 10 n else Nat.toDigits 10 n

/-- parse_pdf: page_id = f"{doc_id}#p{page_num:02d}". -/
def mkPageId (doc_id : Str) (n : Nat) : Str := doc_id ++ str "#p" ++ fmt02 n

/-- The per-page loop of parse_pdf, over the per-page results of
page.extract_text() (the pdfplumber collaborator), numbering pages from a
given start index: a page whose text is None or whitespace-only is skipped;
otherwise its text is cleaned with ' '.join(text.split()) and a record is
emitted. -/
def parsePdfAux (doc_id source_uri source_type : Str) :
    Nat → List (Option Str) → List PdfPage
  | _, [] => []
  | n, none :: rest => parsePdfAux doc_id source_uri source_type (n + 1) rest
  | n, some t :: rest =>
    if pyStrip t = [] then parsePdfAux doc_id source_uri source_type (n + 1) rest
    else
      { doc_id := doc_id
        source_type := source_type
        source_uri := source_uri
        page_id := mkPageId doc_id n
        text := joinSpace (pySplit t)
        page_number := n } :: parsePdfAux doc_id source_uri source_type (n + 1) rest

/-- parse_pdf's page loop: enumerate(pdf.pages, start=1). -/
def parsePdfPages (doc_id source_uri source_type : Str)
    (extracted : List (Option Str)) : List PdfPage :=
  parsePdfAux doc_id source_uri source_type 1 extracted

/-- The concrete page of the spec's test scenario. -/
def demoPage : Page :=
  { doc_id := str "D1"
    page_id := str "D1#p01"
    page_number := str "1"
    source_uri := str "file://d1.pdf"
    text := str "Alice met Bob in Paris. Alice and Bob spoke." }

/-- First sentence of the scenario page (snippet of its mentions). -/
def demoSent1 : Str := str "Alice met Bob in Paris."

/-- Second sentence of the scenario page. -/
def demoSent2 : Str := str "Alice and Bob spoke."

def demoAlice : Mention := { label := str "PERSON", text := str "Alice", snippet := demoSent1 }

def demoBob : Mention := { label := str "PERSON", text := str "Bob", snippet := demoSent1 }

def demoParis : Mention := { label := str "LOC", text := str "Paris", snippet := demoSent1 }

def demoAlice2 : Mention := { label := str "PERSON", text := str "Alice", snippet := demoSent2 }

def demoBob2 : Mention := { label := str "PERSON", text := str "Bob", snippet := demoSent2 }

/-- The NER collaborator's mentions for the scenario page, in source order:
PERSON Alice (twice), PERSON Bob (twice), LOC Paris (once). -/
def demoMentions : List Mention := [demoAlice, demoBob, demoParis, demoAlice2, demoBob2]

/-- A concrete store collaborator whose every write fails with a connection
error (a StoreWriteFailure input for the run loop). -/
def stepFail : Store → Page → Except Str Store :=
  fun _ _ => Except.error (str "connection refused")

/-! ### Lemmas about Python string splitting -/

theorem splitAux_append_space (w : Char) (hw : isPySpace w) (b : Str) :
    ∀ (a acc : Str), splitAux (a ++ w :: b) acc = splitAux a acc ++ splitAux b []
  | [], acc => by
    by_cases h : acc = [] <;> simp [splitAux, hw, h]
  | c :: a', acc => by
    by_cases hc : isPySpace c
    · by_cases h : acc = [] <;>
        simp [splitAux, hc, h, splitAux_append_space w hw b a']
    · simp [splitAux, hc, splitAux_append_space w hw b a']

theorem splitAux_allspace :
    ∀ (l acc : Str), (∀ c ∈ l, isPySpace c) →
      splitAux l acc = if acc = [] then [] else [acc.reverse]
  | [], acc, _ => rfl
  | c :: l', acc, h => by
    have hc : isPySpace c := h c (by simp)
    have hl' : ∀ c ∈ l', isPySpace c := fun d hd => h d (by simp [hd])
    by_cases ha : acc = [] <;>
      simp [splitAux, hc, ha, splitAux_allspace l' [] hl', splitAux_allspace l' acc hl']

theorem splitAux_append_allspace (v : Str) (hv : ∀ c ∈ v, isPySpace c) :
    ∀ (a acc : Str), splitAux (a ++ v) acc = splitAux a acc
  | [], acc => by
    simp [splitAux_allspace v acc hv, splitAux]
  | c :: a', acc => by
    by_cases hc : isPySpace c
    · by_cases h : acc = [] <;>
        simp [splitAux, hc, h, splitAux_append_allspace v hv a']
    · simp [splitAux, hc, splitAux_append_allspace v hv a']

theorem splitAux_allspace_front (a : Str) :
    ∀ (v : Str), (∀ c ∈ v, isPySpace c) → splitAux (v ++ a) [] = splitAux a []
  | [], _ => rfl
  | c :: v', h => by
    have hc : isPySpace c := h c (by simp)
    have hv' : ∀ c ∈ v', isPySpace c := fun d hd => h d (by simp [hd])
    simp [splitAux, hc, splitAux_allspace_front a v' hv']

theorem pySplit_dropWhile (l : Str) :
    pySplit (l.dropWhile isPySpace) = pySplit l := by
  have h : l = l.takeWhile isPySpace ++ l.dropWhile isPySpace :=
    (List.takeWhile_append_dropWhile isPySpace l).symm
  unfold pySplit
  conv_rhs => rw [h]
  rw [splitAux_allspace_front _ _ (fun c hc => List.mem_takeWhile_imp hc)]

theorem pySplit_strip (s : Str) : pySplit (pyStrip s) = pySplit s := by
  set u := s.dropWhile isPySpace with hu
  have h1 : pySplit u = pySplit s := pySplit_dropWhile s
  have h2 : u = (u.reverse.dropWhile isPySpace).reverse ++ (u.reverse.takeWhile isPySpace).reverse := by
    conv_lhs => rw [← List.reverse_reverse u]
    conv_lhs => rw [← List.takeWhile_append_dropWhile isPySpace u.reverse]
    rw [List.reverse_append]
  have h3 : ∀ c ∈ (u.reverse.takeWhile isPySpace).reverse, isPySpace c := by
    intro c hc
    rw [List.mem_reverse] at hc
    exact List.mem_takeWhile_imp hc
  have h4 : pySplit u = pySplit ((u.reverse.dropWhile isPySpace).reverse) := by
    unfold pySplit
    conv_lhs => rw [h2]
    rw [splitAux_append_allspace _ h3]
  unfold pyStrip
  rw [← hu, ← h4, h1]

theorem splitAux_tokens :
    ∀ (l acc : Str), (∀ c ∈ acc, isPySpace c = false) →
      ∀ t ∈ splitAux l acc, t ≠ [] ∧ ∀ c ∈ t, isPySpace c = false
  | [], acc, hacc => by
    by_cases h : acc = [] <;> simp [splitAux, h]
    intro c hc
    exact hacc c (by simpa using hc)
  | c :: l', acc, hacc => by
    by_cases hc : isPySpace c
    · by_cases h : acc = []
      · simpa [splitAux, hc, h] using splitAux_tokens l' [] (by simp)
      · intro t ht
        simp only [splitAux, if_pos hc, if_neg h, List.mem_cons] at ht
        rcases ht with rfl | ht
        · exact ⟨by simpa using h, fun d hd => hacc d (by simpa using hd)⟩
        · exact splitAux_tokens l' [] (by simp) t ht
    · intro t ht
      simp only [splitAux, if_neg hc] at ht
      refine splitAux_tokens l' (c :: acc) ?_ t ht
      intro d hd
      rcases List.mem_cons.mp hd with rfl | hd
      · simpa using hc
      · exact hacc d hd

theorem pySplit_tokens (s : Str) :
    ∀ t ∈ pySplit s, t ≠ [] ∧ ∀ c ∈ t, isPySpace c = false :=
  splitAux_tokens s [] (by simp)

theorem splitAux_token_chars :
    ∀ (t rest acc : Str), (∀ c ∈ t, isPySpace c = false) →
      splitAux (t ++ rest) acc = splitAux rest (t.reverse ++ acc)
  | [], rest, acc, _ => by simp
  | c :: t', rest, acc, h => by
    have hc : isPySpace c = false := h c (by simp)
    have ht' : ∀ c ∈ t', isPySpace c = false := fun d hd => h d (by simp [hd])
    simp [splitAux, hc, splitAux_token_chars t' rest (c :: acc) ht']

theorem pySplit_single (t : Str) (hne : t ≠ []) (h : ∀ c ∈ t, isPySpace c = false) :
    pySplit t = [t] := by
  unfold pySplit
  have := splitAux_token_chars t [] [] h
  simp only [List.append_nil] at this
  simp [this, splitAux, hne]

theorem pySplit_joinSpace :
    ∀ (ts : List Str), (∀ t ∈ ts, t ≠ [] ∧ ∀ c ∈ t, isPySpace c = false) →
      pySplit (joinSpace ts) = ts
  | [], _ => rfl
  | [t], h => by
    simpa [joinSpace] using pySplit_single t (h t (by simp)).1 (h t (by simp)).2
  | t :: t2 :: ts, h => by
    have hsp : isPySpace ' ' := by decide
    have hrec : pySplit (joinSpace (t2 :: ts)) = t2 :: ts :=
      pySplit_joinSpace (t2 :: ts) (fun x hx => h x (by simp [hx]))
    have ht := h t (by simp)
    calc pySplit (joinSpace (t :: t2 :: ts)) = pySplit (t ++ ' ' :: joinSpace (t2 :: ts)) := rfl
      _ = pySplit t ++ pySplit (joinSpace (t2 :: ts)) := splitAux_append_space ' ' hsp _ t []
      _ = t :: t2 :: ts := by rw [pySplit_single t ht.1 ht.2, hrec]; rfl

theorem norm_text_eq (s : Str) : norm_text s = joinSpace (pySplit s) := by
  unfold norm_text
  rw [pySplit_strip]

theorem norm_text_idem (s : Str) :
    norm_text (joinSpace (pySplit s)) = joinSpace (pySplit s) := by
  rw [norm_text_eq, pySplit_joinSpace (pySplit s) (pySplit_tokens s)]

/-! ### Lowercasing commutes with normalization -/

theorem charOfNat_toNat {n : Nat} (h : n ≤ 122) : (Char.ofNat n).toNat = n := by
  unfold Char.ofNat
  rw [dif_pos (Or.inl (by omega))]
  rfl

theorem isPySpace_toLower (c : Char) : isPySpace (Char.toLower c) = isPySpace c := by
  unfold Char.toLower
  by_cases h : c.toNat ≥ 65 ∧ c.toNat ≤ 90
  · rw [if_pos h]
    obtain ⟨ha, hb⟩ := h
    have h1 : (Char.ofNat (c.toNat + 32)).toNat = c.toNat + 32 :=
      charOfNat_toNat (by omega)
    have hl : isPySpace (Char.ofNat (c.toNat + 32)) = false := by
      simp only [isPySpace, h1, Bool.or_eq_false_iff, decide_eq_false_iff_not]
      omega
    have hr : isPySpace c = false := by
      simp only [isPySpace, Bool.or_eq_false_iff, decide_eq_false_iff_not]
      omega
    rw [hl, hr]
  · rw [if_neg h]

theorem joinSpace_cons₂ (a b : Str) (l : List Str) :
    joinSpace (a :: b :: l) = a ++ ' ' :: joinSpace (b :: l) := rfl

theorem splitAux_map_toLower :
    ∀ (l acc : Str),
      splitAux (l.map Char.toLower) (acc.map Char.toLower) =
        (splitAux l acc).map (List.map Char.toLower)
  | [], acc => by
    by_cases h : acc = []
    · simp [splitAux, h]
    · have h2 : acc.map Char.toLower ≠ [] := by simpa using h
      simp [splitAux, h, h2, List.map_reverse]
  | c :: l', acc => by
    have hc2 : isPySpace (Char.toLower c) = isPySpace c := isPySpace_toLower c
    by_cases hc : isPySpace c
    · by_cases h : acc = []
      · have ih := splitAux_map_toLower l' []
        simp only [List.map_nil] at ih
        simp [splitAux, hc, hc2, h, ih]
      · have h2 : acc.map Char.toLower ≠ [] := by simpa using h
        have ih := splitAux_map_toLower l' []
        simp only [List.map_nil] at ih
        simp [splitAux, hc, hc2, h, h2, ih, List.map_reverse]
    · have ih := splitAux_map_toLower l' (c :: acc)
      simp only [List.map_cons] at ih
      simp [splitAux, hc, hc2, ih]

theorem pySplit_pyLower (s : Str) :
    pySplit (pyLower s) = (pySplit s).map pyLower := by
  have := splitAux_map_toLower s []
  simp only [List.map_nil] at this
  simpa [pySplit, pyLower] using this

theorem joinSpace_map_toLower :
    ∀ (ts : List Str),
      joinSpace (ts.map (List.map Char.toLower)) = (joinSpace ts).map Char.toLower
  | [] => rfl
  | [t] => by simp [joinSpace]
  | t :: t2 :: ts => by
    have ih := joinSpace_map_toLower (t2 :: ts)
    have hsp : Char.toLower ' ' = ' ' := by decide
    simp only [List.map_cons] at ih ⊢
    rw [joinSpace_cons₂, joinSpace_cons₂, ih, List.map_append, List.map_cons, hsp]

theorem norm_text_pyLower (s : Str) :
    norm_text (pyLower s) = pyLower (norm_text s) := by
  have h2 : (pySplit s).map pyLower = (pySplit s).map (List.map Char.toLower) := rfl
  rw [norm_text_eq, norm_text_eq, pySplit_pyLower, pyLower, h2,
    joinSpace_map_toLower]

/-- C3: for every category tag, the entity-identity function make_entity_id is
deterministic, and two surface texts that differ only in leading or trailing
whitespace, in the length of an internal whitespace run, or in letter case map
to the same entity_id. -/
theorem claim_C3_identity_stability :
    (∀ (ty t1 t2 : Str), t1 = t2 → make_entity_id ty t1 = make_entity_id ty t2) ∧
    (∀ (ty pre t post : Str), (∀ c ∈ pre, isPySpace c) → (∀ c ∈ post, isPySpace c) →
      make_entity_id ty (pre ++ t ++ post) = make_entity_id ty t) ∧
    (∀ (ty u w1 w2 v : Str), w1 ≠ [] → w2 ≠ [] →
      (∀ c ∈ w1, isPySpace c) → (∀ c ∈ w2, isPySpace c) →
      make_entity_id ty (u ++ w1 ++ v) = make_entity_id ty (u ++ w2 ++ v)) ∧
    (∀ (ty t1 t2 : Str), pyLower t1 = pyLower t2 →
      make_entity_id ty t1 = make_entity_id ty t2) := by
  have key : ∀ (ty t1 t2 : Str), pySplit t1 = pySplit t2 →
      make_entity_id ty t1 = make_entity_id ty t2 := by
    intro ty t1 t2 h
    unfold make_entity_id
    rw [norm_text_eq, norm_text_eq, h]
  refine ⟨fun ty t1 t2 h => by rw [h], ?_, ?_, ?_⟩
  · intro ty pre t post hpre hpost
    refine key ty _ _ ?_
    unfold pySplit
    rw [List.append_assoc, splitAux_allspace_front _ pre hpre,
      splitAux_append_allspace post hpost]
  · intro ty u w1 w2 v hw1 hw2 h1 h2
    have main : ∀ (w : Str), w ≠ [] → (∀ c ∈ w, isPySpace c) →
        pySplit (u ++ w ++ v) = pySplit u ++ pySplit v := by
      intro w hne hsp
      match w with
      | [] => exact absurd rfl hne
      | c :: w' =>
        have hc : isPySpace c := hsp c (by simp)
        have hw' : ∀ d ∈ w', isPySpace d := fun d hd => hsp d (by simp [hd])
        calc pySplit (u ++ (c :: w') ++ v) = pySplit (u ++ c :: (w' ++ v)) := by
              simp [List.append_assoc]
          _ = pySplit u ++ pySplit (w' ++ v) := splitAux_append_space c hc _ u []
          _ = pySplit u ++ pySplit v := by
              unfold pySplit; rw [splitAux_allspace_front v w' hw']
    exact key ty _ _ ((main w1 hw1 h1).trans (main w2 hw2 h2).symm)
  · intro ty t1 t2 h
    unfold make_entity_id
    rw [← norm_text_pyLower, ← norm_text_pyLower, h]

/-- Witness for C3: a concrete tag and texts differing in outer whitespace. -/
theorem claim_C3_witness :
    (∀ c ∈ str "  ", isPySpace c) ∧ (∀ c ∈ str " ", isPySpace c) ∧
    make_entity_id (str "PERSON") (str "  " ++ str "Al  iCe" ++ str " ") =
      make_entity_id (str "PERSON") (str "Al  iCe") :=
  ⟨by decide, by decide,
    claim_C3_identity_stability.2.1 (str "PERSON") (str "  ") (str "Al  iCe") (str " ")
      (by decide) (by decide)⟩

/-! ### Provenance reference round-trip -/

theorem hasTriplePipe_cons (c : Char) (cs : Str) :
    hasTriplePipe (c :: cs) =
      ((decide (c = '|') && decide (cs.take 2 = ['|', '|'])) || hasTriplePipe cs) := rfl

theorem endsWithPipe_cons_ne (c : Char) (cs : Str) (h : cs ≠ []) :
    endsWithPipe (c :: cs) = endsWithPipe cs := by
  simp [endsWithPipe, h]

theorem splitFirstOn_sep_append (s2 : Str) :
    ∀ (m : Str), hasTriplePipe m = false → endsWithPipe m = false →
      splitFirstOn REF_SEP (m ++ REF_SEP ++ s2) = some (m, s2)
  | [], _, _ => by
    have hp : REF_SEP.isPrefixOf ('|' :: '|' :: '|' :: s2) = true := by
      simp [REF_SEP, str, List.isPrefixOf]
    show splitFirstOn REF_SEP (([] ++ REF_SEP) ++ s2) = some ([], s2)
    simp only [List.nil_append, REF_SEP, str]
    simp only [splitFirstOn]
    rw [if_pos (by simpa [REF_SEP, str] using hp)]
    simp
  | c :: m', h3, he => by
    have h3' : hasTriplePipe m' = false := by
      rw [hasTriplePipe_cons] at h3
      exact (Bool.or_eq_false_iff.mp h3).2
    have he' : endsWithPipe m' = false := by
      rcases Decidable.em (m' = []) with h | h
      · simp [h, endsWithPipe]
      · rw [endsWithPipe_cons_ne c m' h] at he
        exact he
    have ih := splitFirstOn_sep_append s2 m' h3' he'
    have hnp : REF_SEP.isPrefixOf (c :: ((m' ++ REF_SEP) ++ s2)) = false := by
      by_cases hcp : c = '|'
      · subst hcp
        rcases m' with _ | ⟨c2, m2⟩
        · simp [endsWithPipe] at he
        · rcases m2 with _ | ⟨c3, m3⟩
          · have h2 : c2 ≠ '|' := by
              intro h2
              subst h2
              simp [endsWithPipe] at he
            have h2s : ¬ ('|' = c2) := fun hx => h2 hx.symm
            simp [REF_SEP, str, List.isPrefixOf, h2, h2s]
          · by_cases h2 : c2 = '|'
            · subst h2
              have h3c : c3 ≠ '|' := by
                intro h3c
                subst h3c
                rw [hasTriplePipe_cons] at h3
                simp [List.take] at h3
              have h3cs : ¬ ('|' = c3) := fun hx => h3c hx.symm
              simp [REF_SEP, str, List.isPrefixOf, h3c, h3cs]
            · have h2s : ¬ ('|' = c2) := fun hx => h2 hx.symm
              simp [REF_SEP, str, List.isPrefixOf, h2, h2s]
      · have hcps : ¬ ('|' = c) := fun hx => hcp hx.symm
        simp [REF_SEP, str, List.isPrefixOf, hcp, hcps]
    have hnp' : ¬ (REF_SEP.isPrefixOf (c :: ((m' ++ REF_SEP) ++ s2)) = true) := by
      rw [hnp]
      exact Bool.false_ne_true
    show splitFirstOn REF_SEP (((c :: m') ++ REF_SEP) ++ s2) = some (c :: m', s2)
    rw [List.cons_append, List.cons_append]
    simp only [splitFirstOn]
    rw [if_neg hnp', ih]

theorem splitOnChar_append_pipe (w : Str) :
    ∀ (a : Str), '|' ∉ a → splitOnChar '|' (a ++ '|' :: w) = a :: splitOnChar '|' w
  | [], _ => by simp [splitOnChar]
  | c :: a', h => by
    have hc : c ≠ '|' := fun hc => h (by simp [hc])
    have ih := splitOnChar_append_pipe w a' (fun ha => h (by simp [ha]))
    rw [List.cons_append]
    simp only [splitOnChar, if_neg hc]
    rw [ih]

theorem splitOnChar_nopipe :
    ∀ (d : Str), '|' ∉ d → splitOnChar '|' d = [d]
  | [], _ => rfl
  | c :: d', h => by
    have hc : c ≠ '|' := fun hc => h (by simp [hc])
    have ih := splitOnChar_nopipe d' (fun hd => h (by simp [hd]))
    simp only [splitOnChar, if_neg hc]
    rw [ih]

theorem hasTriplePipe_nopipe_front (w : Str) :
    ∀ (a : Str), '|' ∉ a → hasTriplePipe (a ++ w) = hasTriplePipe w
  | [], _ => rfl
  | c :: a', h => by
    have hc : c ≠ '|' := fun hc => h (by simp [hc])
    have ih := hasTriplePipe_nopipe_front w a' (fun ha => h (by simp [ha]))
    simp [hasTriplePipe_cons, hc, ih]

theorem hasTriplePipe_nopipe (d : Str) (h : '|' ∉ d) : hasTriplePipe d = false := by
  have := hasTriplePipe_nopipe_front [] d h
  simpa using this

theorem endsWithPipe_append (a : Str) :
    ∀ (d : Str), d ≠ [] → endsWithPipe (a ++ d) = endsWithPipe d := by
  induction a with
  | nil => intro d _; rfl
  | cons c a' ih =>
    intro d hd
    have hne : a' ++ d ≠ [] := by
      intro h
      rcases List.append_eq_nil.mp h with ⟨_, h2⟩
      exact hd h2
    rw [List.cons_append, endsWithPipe_cons_ne c _ hne, ih d hd]

theorem endsWithPipe_nopipe :
    ∀ (d : Str), '|' ∉ d → endsWithPipe d = false
  | [], _ => rfl
  | c :: d', h => by
    have hc : c ≠ '|' := fun hc => h (by simp [hc])
    rcases Decidable.em (d' = []) with hnil | hnil
    · simp [hnil, endsWithPipe, hc]
    · rw [endsWithPipe_cons_ne c d' hnil]
      exact endsWithPipe_nopipe d' (fun hd => h (by simp [hd]))

theorem take2_of_cons_ne (h : Char) (hh : h ≠ '|') (w : Str) :
    decide ((h :: w).take 2 = ['|', '|']) = false := by
  simp only [decide_eq_false_iff_not]
  intro hx
  rcases w with _ | ⟨y, ys⟩ <;> simp [List.take] at hx <;> exact hh hx.1

theorem meta_hasTriplePipe_false (a b c d : Str)
    (ha : '|' ∉ a) (hb : '|' ∉ b) (hc : '|' ∉ c) (hd : '|' ∉ d)
    (hdne : d ≠ []) (hbc : ¬ (b = [] ∧ c = [])) :
    hasTriplePipe (a ++ '|' :: (b ++ '|' :: (c ++ '|' :: d))) = false := by
  rw [hasTriplePipe_nopipe_front _ a ha, hasTriplePipe_cons]
  have step1 : decide ((b ++ '|' :: (c ++ '|' :: d)).take 2 = ['|', '|']) = false := by
    rcases b with _ | ⟨hb1, b'⟩
    · rcases c with _ | ⟨hc1, c'⟩
      · exact absurd ⟨rfl, rfl⟩ hbc
      · have : hc1 ≠ '|' := fun h => hc (by simp [h])
        simp only [List.nil_append, List.cons_append]
        simp [List.take, this]
    · have : hb1 ≠ '|' := fun h => hb (by simp [h])
      simp only [List.cons_append]
      exact take2_of_cons_ne hb1 this _
  rw [step1]
  rw [hasTriplePipe_nopipe_front _ b hb, hasTriplePipe_cons]
  have step2 : decide ((c ++ '|' :: d).take 2 = ['|', '|']) = false := by
    rcases c with _ | ⟨hc1, c'⟩
    · rcases d with _ | ⟨hd1, d'⟩
      · exact absurd rfl hdne
      · have : hd1 ≠ '|' := fun h => hd (by simp [h])
        simp only [List.nil_append, List.cons_append]
        simp [List.take, this]
    · have : hc1 ≠ '|' := fun h => hc (by simp [h])
      simp only [List.cons_append]
      exact take2_of_cons_ne hc1 this _
  rw [step2]
  rw [hasTriplePipe_nopipe_front _ c hc, hasTriplePipe_cons]
  have step3 : decide (d.take 2 = ['|', '|']) = false := by
    rcases d with _ | ⟨hd1, d'⟩
    · exact absurd rfl hdne
    · have : hd1 ≠ '|' := fun h => hd (by simp [h])
      exact take2_of_cons_ne hd1 this _
  rw [step3]
  rw [hasTriplePipe_nopipe d hd]
  rfl

/-- C4 (amended): the node-level reference encoding is lossless for every
snippet (the snippet may contain the field separator and is never re-split),
provided no metadata field contains the field separator, the source_uri field
is non-empty, and page_id and page_number are not both empty; decoding splits
on the first occurrence of the two-character-distinct separator and then
splits the metadata on the field separator, recovering the original fields. -/
theorem claim_C4_roundtrip (p : Page) (snippet : Str)
    (ha : '|' ∉ p.doc_id) (hb : '|' ∉ p.page_id) (hc : '|' ∉ p.page_number)
    (hd : '|' ∉ p.source_uri) (hdne : p.source_uri ≠ [])
    (hbc : ¬ (p.page_id = [] ∧ p.page_number = [])) :
    decodeRef (make_ref p snippet) =
      some (p.doc_id, p.page_id, p.page_number, p.source_uri, snippet) := by
  have hm : p.doc_id ++ '|' :: p.page_id ++ '|' :: p.page_number ++ '|' :: p.source_uri
      = p.doc_id ++ '|' :: (p.page_id ++ '|' :: (p.page_number ++ '|' :: p.source_uri)) := by
    simp [List.append_assoc]
  have hmeta3 : hasTriplePipe
      (p.doc_id ++ '|' :: (p.page_id ++ '|' :: (p.page_number ++ '|' :: p.source_uri))) = false :=
    meta_hasTriplePipe_false _ _ _ _ ha hb hc hd hdne hbc
  have hmetaE : endsWithPipe
      (p.doc_id ++ '|' :: (p.page_id ++ '|' :: (p.page_number ++ '|' :: p.source_uri))) = false := by
    have h1 : p.doc_id ++ '|' :: (p.page_id ++ '|' :: (p.page_number ++ '|' :: p.source_uri))
        = (p.doc_id ++ '|' :: (p.page_id ++ '|' :: (p.page_number ++ ['|']))) ++ p.source_uri := by
      simp
    rw [h1, endsWithPipe_append _ p.source_uri hdne, endsWithPipe_nopipe p.source_uri hd]
  have hsm : splitOnChar '|'
      (p.doc_id ++ '|' :: (p.page_id ++ '|' :: (p.page_number ++ '|' :: p.source_uri))) =
      [p.doc_id, p.page_id, p.page_number, p.source_uri] := by
    rw [splitOnChar_append_pipe _ p.doc_id ha, splitOnChar_append_pipe _ p.page_id hb,
      splitOnChar_append_pipe _ p.page_number hc, splitOnChar_nopipe p.source_uri hd]
  unfold make_ref decodeRef
  rw [hm, splitFirstOn_sep_append snippet _ hmeta3 hmetaE]
  simp [hsm]

/-- Witness for C4 (amended): concrete fields with a snippet containing the
page-level field separator round-trip exactly. -/
theorem claim_C4_witness :
    ('|' ∉ str "D1") ∧ ('|' ∉ str "D1#p01") ∧ ('|' ∉ str "1") ∧
    ('|' ∉ str "file://d1.pdf") ∧ (str "file://d1.pdf" ≠ ([] : Str)) ∧
    decodeRef (make_ref
      { doc_id := str "D1", page_id := str "D1#p01", page_number := str "1",
        source_uri := str "file://d1.pdf", text := [] } (str "met Bob | Alice")) =
      some (str "D1", str "D1#p01", str "1", str "file://d1.pdf", str "met Bob | Alice") :=
  ⟨by decide, by decide, by decide, by decide, by decide,
    claim_C4_roundtrip
      { doc_id := str "D1", page_id := str "D1#p01", page_number := str "1",
        source_uri := str "file://d1.pdf", text := [] } (str "met Bob | Alice")
      (by decide) (by decide) (by decide) (by decide) (by decide) (by decide)⟩

/-- Counterexample for C4 as stated: with an empty source_uri field (the claim
allows every field to be empty) and a snippet free of the reserved separators,
the metadata part ends in a field separator, the first occurrence of the
node-level separator shifts one character left, and decoding fails to recover
the fields. -/
theorem claim_C4_counterexample :
    decodeRef (make_ref
      { doc_id := str "D1", page_id := str "D1#p01", page_number := str "1",
        source_uri := [], text := [] } (str "s")) = none ∧
    decodeRef (make_ref
      { doc_id := str "D1", page_id := str "D1#p01", page_number := str "1",
        source_uri := [], text := [] } (str "s")) ≠
      some (str "D1", str "D1#p01", str "1", [], str "s") := by
  constructor
  · decide
  · decide

/-! ### The per-page dedup dict -/

theorem alookup_append {κ ν : Type} [DecidableEq κ] (l1 l2 : List (κ × ν)) (k : κ) :
    alookup (l1 ++ l2) k = (alookup l1 k).or (alookup l2 k) := by
  induction l1 with
  | nil => simp [alookup]
  | cons kv l1' ih =>
    by_cases h : kv.1 = k <;> simp [alookup, h, ih]

theorem alookup_eq_none {κ ν : Type} [DecidableEq κ] :
    ∀ (l : List (κ × ν)) (k : κ), alookup l k = none ↔ k ∉ l.map Prod.fst
  | [], k => by simp [alookup]
  | kv :: l', k => by
    by_cases h : kv.1 = k
    · simp [alookup, h]
    · have hs : ¬ k = kv.1 := fun hx => h hx.symm
      simp [alookup, h, hs, alookup_eq_none l' k]

theorem mem_allowed (x : Str) :
    x ∈ ALLOWED_TYPES ↔ (x = str "PERSON" ∨ x = str "LOC") := by
  simp [ALLOWED_TYPES]

theorem addMention_lookup_stable (p : Page) (m : Mention) {u : List (Str × Entity)}
    {k : Str} {v : Entity} (h : alookup u k = some v) :
    alookup (addMention p u m) k = some v := by
  unfold addMention
  by_cases hl : m.label ∈ ALLOWED_TYPES
  · rw [if_pos (by simpa using hl)]
    cases halt : alookup u (make_entity_id m.label m.text) with
    | some w => exact h
    | none => rw [alookup_append, h]; rfl
  · rw [if_neg (by simpa using hl)]
    exact h

theorem foldl_addMention_stable (p : Page) :
    ∀ (ms : List Mention) {u : List (Str × Entity)} {k : Str} {v : Entity},
      alookup u k = some v → alookup (ms.foldl (addMention p) u) k = some v
  | [], _, _, _, h => h
  | m :: ms', u, k, v, h =>
    foldl_addMention_stable p ms' (addMention_lookup_stable p m h)

theorem foldl_addMention_none (p : Page) :
    ∀ (ms : List Mention) (u : List (Str × Entity)) (k : Str), alookup u k = none →
      alookup (ms.foldl (addMention p) u) k =
        (ms.find? (fun m => ALLOWED_TYPES.contains m.label &&
          decide (make_entity_id m.label m.text = k))).map (mkEntity p)
  | [], u, k, h => by simp [h]
  | m :: ms', u, k, h => by
    by_cases hl : m.label ∈ ALLOWED_TYPES
    · by_cases hk : make_entity_id m.label m.text = k
      · have hnone : alookup u (make_entity_id m.label m.text) = none := by
          rw [hk]; exact h
        have hstep : addMention p u m =
            u ++ [(make_entity_id m.label m.text, mkEntity p m)] := by
          unfold addMention
          rw [if_pos (by simpa using hl), hnone]
        have hlook : alookup (addMention p u m) k = some (mkEntity p m) := by
          rw [hstep, alookup_append, h, hk]
          simp [alookup]
        rw [List.foldl_cons, foldl_addMention_stable p ms' hlook,
          List.find?_cons_of_pos _ (by simp [hl, hk])]
        rfl
      · have hstep : alookup (addMention p u m) k = none := by
          unfold addMention
          rw [if_pos (by simpa using hl)]
          cases halt : alookup u (make_entity_id m.label m.text) with
          | some w => exact h
          | none =>
            rw [alookup_append, h]
            simp [alookup, hk]
        rw [List.foldl_cons, foldl_addMention_none p ms' _ k hstep,
          List.find?_cons_of_neg _ (by simp [hk])]
    · have hstep : addMention p u m = u := by
        unfold addMention
        rw [if_neg (by simpa using hl)]
      rw [List.foldl_cons, hstep, foldl_addMention_none p ms' u k h,
        List.find?_cons_of_neg _ (by simp [hl])]

theorem alookup_uniqueMap (p : Page) (ms : List Mention) (k : Str) :
    alookup (uniqueMap p ms) k =
      (ms.find? (fun m => ALLOWED_TYPES.contains m.label &&
        decide (make_entity_id m.label m.text = k))).map (mkEntity p) :=
  foldl_addMention_none p ms [] k rfl

theorem foldl_addMention_nodup (p : Page) :
    ∀ (ms : List Mention) (u : List (Str × Entity)), (u.map Prod.fst).Nodup →
      ((ms.foldl (addMention p) u).map Prod.fst).Nodup
  | [], _, h => h
  | m :: ms', u, h => by
    refine foldl_addMention_nodup p ms' (addMention p u m) ?_
    unfold addMention
    by_cases hl : m.label ∈ ALLOWED_TYPES
    · rw [if_pos (by simpa using hl)]
      cases halt : alookup u (make_entity_id m.label m.text) with
      | some w => exact h
      | none =>
        have hmem : make_entity_id m.label m.text ∉ u.map Prod.fst :=
          (alookup_eq_none u _).mp halt
        rw [List.map_append]
        refine List.Nodup.append h (List.nodup_singleton _) ?_
        intro a ha hb
        rcases List.mem_singleton.mp hb with rfl
        exact hmem ha
    · rw [if_neg (by simpa using hl)]
      exact h

theorem uniqueMap_keys_nodup (p : Page) (ms : List Mention) :
    ((uniqueMap p ms).map Prod.fst).Nodup :=
  foldl_addMention_nodup p ms [] (by simp)

theorem foldl_addMention_inv (p : Page) :
    ∀ (ms : List Mention) (u : List (Str × Entity)),
      (∀ kv ∈ u, kv.1 = kv.2.entity_id ∧
        (kv.2.type = str "PERSON" ∨ kv.2.type = str "LOC")) →
      ∀ kv ∈ ms.foldl (addMention p) u, kv.1 = kv.2.entity_id ∧
        (kv.2.type = str "PERSON" ∨ kv.2.type = str "LOC")
  | [], _, h => h
  | m :: ms', u, h => by
    refine foldl_addMention_inv p ms' (addMention p u m) ?_
    unfold addMention
    by_cases hl : m.label ∈ ALLOWED_TYPES
    · rw [if_pos (by simpa using hl)]
      cases halt : alookup u (make_entity_id m.label m.text) with
      | some w => exact h
      | none =>
        intro kv hkv
        rcases List.mem_append.mp hkv with hkv | hkv
        · exact h kv hkv
        · rcases List.mem_singleton.mp hkv with rfl
          exact ⟨rfl, (mem_allowed m.label).mp hl⟩
    · rw [if_neg (by simpa using hl)]
      exact h

theorem uniqueMap_inv (p : Page) (ms : List Mention) :
    ∀ kv ∈ uniqueMap p ms, kv.1 = kv.2.entity_id ∧
      (kv.2.type = str "PERSON" ∨ kv.2.type = str "LOC") :=
  foldl_addMention_inv p ms [] (by simp)

/-- C7: the per-page deduplicator maps each surviving entity_id to exactly one
contribution record (its keys are pairwise distinct), and the record stored
under an id is built from the first mention of that identity in source order
(first allowed mention whose entity id matches), taking type, display name and
reference (with snippet) from that mention; later same-identity mentions on
the page contribute nothing. -/
theorem claim_C7_first_seen_wins (p : Page) (ms : List Mention) :
    ((uniqueMap p ms).map Prod.fst).Nodup ∧
    ∀ eid : Str, alookup (uniqueMap p ms) eid =
      (ms.find? (fun m => ALLOWED_TYPES.contains m.label &&
        decide (make_entity_id m.label m.text = eid))).map (mkEntity p) :=
  ⟨uniqueMap_keys_nodup p ms, fun eid => alookup_uniqueMap p ms eid⟩

/-! ### Label grouping -/

theorem mem_aupdate {κ ν : Type} [DecidableEq κ] (f : ν → ν) (k : κ) :
    ∀ (l : List (κ × ν)) (g : κ × ν), g ∈ aupdate f k l →
      g ∈ l ∨ ∃ g0 ∈ l, g0.1 = k ∧ g = (g0.1, f g0.2)
  | [], g, h => absurd h (by simp [aupdate])
  | kv :: l', g, h => by
    by_cases hk : kv.1 = k
    · rw [aupdate, if_pos hk] at h
      rcases List.mem_cons.mp h with rfl | h
      · exact Or.inr ⟨kv, by simp, hk, rfl⟩
      · rcases mem_aupdate f k l' g h with h | ⟨g0, hg0, hgk, rfl⟩
        · exact Or.inl (by simp [h])
        · exact Or.inr ⟨g0, by simp [hg0], hgk, rfl⟩
    · rw [aupdate, if_neg hk] at h
      rcases List.mem_cons.mp h with rfl | h
      · exact Or.inl (by simp)
      · rcases mem_aupdate f k l' g h with h | ⟨g0, hg0, hgk, rfl⟩
        · exact Or.inl (by simp [h])
        · exact Or.inr ⟨g0, by simp [hg0], hgk, rfl⟩

theorem foldl_addGroup_inv (R : Entity → Prop) :
    ∀ (es : List Entity) (gs : List (Str × List Entity)),
      (∀ g ∈ gs, ∀ e ∈ g.2, g.1 = labelFor e.type ∧ R e) →
      (∀ e ∈ es, R e) →
      ∀ g ∈ es.foldl (fun gs e => addGroup gs (labelFor e.type) e) gs,
        ∀ e ∈ g.2, g.1 = labelFor e.type ∧ R e
  | [], _, hgs, _ => hgs
  | e :: es', gs, hgs, hes => by
    refine foldl_addGroup_inv R es' _ ?_ (fun x hx => hes x (by simp [hx]))
    have he : R e := hes e (by simp)
    intro g hg e2 he2
    simp only [addGroup] at hg
    cases halt : alookup gs (labelFor e.type) with
    | some es0 =>
      rw [halt] at hg
      rcases mem_aupdate _ _ gs g hg with hg | ⟨g0, hg0, hk, rfl⟩
      · exact hgs g hg e2 he2
      · simp only at he2
        rcases List.mem_append.mp he2 with h2 | h2
        · have := hgs g0 hg0 e2 h2
          exact ⟨this.1, this.2⟩
        · rcases List.mem_singleton.mp h2 with rfl
          exact ⟨hk, he⟩
    | none =>
      rw [halt] at hg
      rcases List.mem_append.mp hg with hg | hg
      · exact hgs g hg e2 he2
      · rcases List.mem_singleton.mp hg with rfl
        rcases List.mem_singleton.mp he2 with rfl
        exact ⟨rfl, he⟩

theorem byLabel_inv (p : Page) (ms : List Mention) :
    ∀ g ∈ byLabel ((uniqueMap p ms).map Prod.snd), ∀ e ∈ g.2,
      g.1 = labelFor e.type ∧ (e.type = str "PERSON" ∨ e.type = str "LOC") := by
  refine foldl_addGroup_inv _ _ [] (by simp) ?_
  intro e he
  rcases List.mem_map.mp he with ⟨kv, hkv, rfl⟩
  exact (uniqueMap_inv p ms kv hkv).2

/-- C9: every entity contribution that reaches the entity-upsert step has a
type in the allow-list, each such type is a key of LABEL_MAP, the group label
it is written under is exactly the mapped label (Person for PERSON, Location
for LOC) rather than the Person default of the grouping, and in particular a
LOC entity is never written under the Person label. -/
theorem claim_C9_label_grouping (p : Page) (ms : List Mention)
    (g : Str × List Entity) (e : Entity)
    (hg : g ∈ byLabel ((uniqueMap p ms).map Prod.snd)) (he : e ∈ g.2) :
    (alookup LABEL_MAP e.type).isSome ∧ g.1 = labelFor e.type ∧
    ((e.type = str "PERSON" ∧ g.1 = str "Person") ∨
     (e.type = str "LOC" ∧ g.1 = str "Location")) := by
  obtain ⟨hlab, hty⟩ := byLabel_inv p ms g hg e he
  rcases hty with h | h
  · refine ⟨by rw [h]; decide, hlab, Or.inl ⟨h, ?_⟩⟩
    rw [hlab, h]
    decide
  · refine ⟨by rw [h]; decide, hlab, Or.inr ⟨h, ?_⟩⟩
    rw [hlab, h]
    decide

/-- Witness for C9: in the concrete scenario the Paris contribution sits in
the Location group, not under the Person default. -/
theorem claim_C9_witness :
    ((str "Location", [mkEntity demoPage demoParis]) ∈
      byLabel ((uniqueMap demoPage demoMentions).map Prod.snd)) ∧
    (mkEntity demoPage demoParis ∈ [mkEntity demoPage demoParis]) ∧
    ((alookup LABEL_MAP (mkEntity demoPage demoParis).type).isSome ∧
     (str "Location", [mkEntity demoPage demoParis]).1 =
       labelFor (mkEntity demoPage demoParis).type ∧
     (((mkEntity demoPage demoParis).type = str "PERSON" ∧
        (str "Location", [mkEntity demoPage demoParis]).1 = str "Person") ∨
      ((mkEntity demoPage demoParis).type = str "LOC" ∧
        (str "Location", [mkEntity demoPage demoParis]).1 = str "Location"))) :=
  ⟨by decide, by decide,
    claim_C9_label_grouping demoPage demoMentions
      (str "Location", [mkEntity demoPage demoParis]) (mkEntity demoPage demoParis)
      (by decide) (by decide)⟩

/-! ### Pair derivation -/

theorem combos_length {α : Type} :
    ∀ (l : List α), 2 * (combos l).length = l.length * (l.length - 1)
  | [] => rfl
  | x :: xs => by
    have ih := combos_length xs
    simp only [combos, List.length_append, List.length_map, List.length_cons]
    cases hn : xs.length with
    | zero =>
      rw [hn] at ih
      simp at ih
      simp [ih]
    | succ k =>
      rw [hn] at ih
      have h1 : k + 1 - 1 = k := rfl
      rw [h1] at ih
      have h2 : k + 1 + 1 - 1 = k + 1 := rfl
      rw [h2]
      have hexp : (k + 1 + 1) * (k + 1) = 2 * (k + 1) + (k + 1) * k := by ring
      omega

theorem combos_mem_rel {α : Type} (R : α → α → Prop) :
    ∀ (l : List α), l.Pairwise R → ∀ ab ∈ combos l, R ab.1 ab.2
  | [], _, ab, h => absurd h (by simp [combos])
  | x :: xs, hp, ab, h => by
    rcases List.mem_append.mp h with h | h
    · rcases List.mem_map.mp h with ⟨y, hy, rfl⟩
      exact (List.pairwise_cons.mp hp).1 y hy
    · exact combos_mem_rel R xs (List.pairwise_cons.mp hp).2 ab h

theorem combos_mem_fst {α : Type} :
    ∀ (l : List α) (ab : α × α), ab ∈ combos l → ab.1 ∈ l
  | [], ab, h => absurd h (by simp [combos])
  | x :: xs, ab, h => by
    rcases List.mem_append.mp h with h | h
    · rcases List.mem_map.mp h with ⟨y, _, rfl⟩
      simp
    · exact List.mem_cons_of_mem x (combos_mem_fst xs ab h)

theorem combos_nodup {α : Type} :
    ∀ (l : List α), l.Nodup → (combos l).Nodup
  | [], _ => by simp [combos]
  | x :: xs, h => by
    obtain ⟨hx, hxs⟩ := List.nodup_cons.mp h
    simp only [combos]
    refine List.Nodup.append ?_ (combos_nodup xs hxs) ?_
    · exact hxs.map (fun a b hab => congrArg Prod.snd hab)
    · intro ab ha hb
      rcases List.mem_map.mp ha with ⟨y, _, rfl⟩
      exact hx (combos_mem_fst xs (x, y) hb)

theorem combos_short {α : Type} :
    ∀ (l : List α), l.length ≤ 1 → combos l = []
  | [], _ => rfl
  | [_], _ => by simp [combos]
  | _ :: _ :: _, h => by simp at h

/-- C2: for every page, the derived pair list has exactly N(N-1)/2 elements
where N is the number of surviving deduplicated entities, every pair is
canonical (lexicographically smaller id first), no pair repeats, and a page
with 0 or 1 surviving entities yields zero pairs. -/
theorem claim_C2_pair_completeness (p : Page) (ms : List Mention) :
    (mkPairs p (uniqueMap p ms)).length =
      (uniqueMap p ms).length * ((uniqueMap p ms).length - 1) / 2 ∧
    (∀ q ∈ mkPairs p (uniqueMap p ms), q.a_id < q.b_id) ∧
    (mkPairs p (uniqueMap p ms)).Nodup ∧
    ((uniqueMap p ms).length ≤ 1 → mkPairs p (uniqueMap p ms) = []) := by
  have hperm := List.perm_insertionSort (fun a b : Str => a ≤ b)
    ((uniqueMap p ms).map Prod.fst)
  have hlen : (sortedEids (uniqueMap p ms)).length = (uniqueMap p ms).length := by
    rw [sortedEids]
    rw [hperm.length_eq, List.length_map]
  have hnd : (sortedEids (uniqueMap p ms)).Nodup :=
    hperm.nodup_iff.mpr (uniqueMap_keys_nodup p ms)
  have hsorted : List.Sorted (fun a b : Str => a ≤ b) (sortedEids (uniqueMap p ms)) :=
    List.sorted_insertionSort _ _
  have hlt : (sortedEids (uniqueMap p ms)).Pairwise (fun a b : Str => a < b) := by
    have hand := List.Pairwise.and hsorted hnd
    exact hand.imp (fun hab => lt_of_le_of_ne hab.1 hab.2)
  refine ⟨?_, ?_, ?_, ?_⟩
  · have h2 := combos_length (sortedEids (uniqueMap p ms))
    rw [hlen] at h2
    rw [mkPairs, List.length_map, ← h2, Nat.mul_div_cancel_left _ (by norm_num)]
  · intro q hq
    rcases List.mem_map.mp hq with ⟨ab, hab, rfl⟩
    exact combos_mem_rel _ _ hlt ab hab
  · rw [mkPairs]
    refine (combos_nodup _ hnd).map ?_
    intro a b hab
    have h1 := congrArg PairRec.a_id hab
    have h2 := congrArg PairRec.b_id hab
    exact Prod.ext h1 h2
  · intro hle
    rw [mkPairs, combos_short _ (by rw [hlen]; exact hle), List.map_nil]

/-- Witness for C2: the degenerate case on a page with no mentions. -/
theorem claim_C2_witness :
    (uniqueMap demoPage ([] : List Mention)).length ≤ 1 ∧
    mkPairs demoPage (uniqueMap demoPage ([] : List Mention)) = [] :=
  ⟨by decide, (claim_C2_pair_completeness demoPage []).2.2.2 (by decide)⟩

/-! ### Store upserts -/

theorem alookup_aupdate_self {κ ν : Type} [DecidableEq κ] (f : ν → ν) (k : κ) :
    ∀ (l : List (κ × ν)), alookup (aupdate f k l) k = (alookup l k).map f
  | [] => rfl
  | kv :: l' => by
    by_cases hk : kv.1 = k
    · rw [aupdate, if_pos hk, alookup, if_pos hk, alookup, if_pos hk]
      rfl
    · rw [aupdate, if_neg hk, alookup, if_neg hk, alookup, if_neg hk,
        alookup_aupdate_self f k l']

theorem alookup_aupdate_other {κ ν : Type} [DecidableEq κ] (f : ν → ν) (k k' : κ)
    (hne : k' ≠ k) :
    ∀ (l : List (κ × ν)), alookup (aupdate f k l) k' = alookup l k'
  | [] => rfl
  | kv :: l' => by
    by_cases hk : kv.1 = k
    · have hk' : kv.1 ≠ k' := by
        rw [hk]
        exact fun hx => hne hx.symm
      rw [aupdate, if_pos hk, alookup, if_neg hk', alookup, if_neg hk',
        alookup_aupdate_other f k k' hne l']
    · by_cases hk2 : kv.1 = k'
      · rw [aupdate, if_neg hk, alookup, if_pos hk2, alookup, if_pos hk2]
      · rw [aupdate, if_neg hk, alookup, if_neg hk2, alookup, if_neg hk2,
          alookup_aupdate_other f k k' hne l']

theorem aupdate_map_fst {κ ν : Type} [DecidableEq κ] (f : ν → ν) (k : κ) :
    ∀ (l : List (κ × ν)), (aupdate f k l).map Prod.fst = l.map Prod.fst
  | [] => rfl
  | kv :: l' => by
    by_cases hk : kv.1 = k <;>
      simp [aupdate, hk, aupdate_map_fst f k l']

theorem alookup_upsertNode (lbl : Str) (e : Entity) (s : Store) (k : NodeKey) :
    alookup (upsertNode lbl e s).nodes k =
      if k = (lbl, e.entity_id) then
        some { name := e.name,
               refs := ((alookup s.nodes k).map NodeRec.refs).getD [] ++ [e.ref] }
      else alookup s.nodes k := by
  unfold upsertNode
  split
  next n halt =>
    by_cases hk : k = (lbl, e.entity_id)
    · rw [if_pos hk]
      show alookup (aupdate _ _ s.nodes) k = _
      rw [hk, alookup_aupdate_self, halt]
      rfl
    · rw [if_neg hk]
      show alookup (aupdate _ _ s.nodes) k = _
      rw [alookup_aupdate_other _ _ _ hk]
  next halt =>
    by_cases hk : k = (lbl, e.entity_id)
    · rw [if_pos hk]
      show alookup (s.nodes ++ _) k = _
      rw [alookup_append, hk, halt]
      simp [alookup]
    · rw [if_neg hk]
      show alookup (s.nodes ++ _) k = _
      rw [alookup_append]
      have h2 : alookup [((lbl, e.entity_id),
          ({ name := e.name, refs := [e.ref] } : NodeRec))] k = none := by
        rw [alookup]
        rw [if_neg (fun hx => hk hx.symm)]
        rfl
      rw [h2]
      cases alookup s.nodes k <;> rfl

theorem upsertNode_map_fst (lbl : Str) (e : Entity) (s : Store) :
    (upsertNode lbl e s).nodes.map Prod.fst =
      if (lbl, e.entity_id) ∈ s.nodes.map Prod.fst then s.nodes.map Prod.fst
      else s.nodes.map Prod.fst ++ [(lbl, e.entity_id)] := by
  unfold upsertNode
  split
  next n halt =>
    have hmem : (lbl, e.entity_id) ∈ s.nodes.map Prod.fst := by
      by_contra hmem
      rw [(alookup_eq_none _ _).mpr hmem] at halt
      cases halt
    rw [if_pos hmem]
    exact aupdate_map_fst _ _ s.nodes
  next halt =>
    rw [if_neg ((alookup_eq_none _ _).mp halt)]
    show (s.nodes ++ _).map Prod.fst = _
    simp

theorem upsertNode_edges (lbl : Str) (e : Entity) (s : Store) :
    (upsertNode lbl e s).edges = s.edges := by
  unfold upsertNode
  split
  next => rfl
  next => rfl

theorem upsertEntities_edges (lbl : Str) :
    ∀ (es : List Entity) (s : Store), (upsertEntities lbl es s).edges = s.edges
  | [], _ => rfl
  | e :: es, s => by
    rw [show upsertEntities lbl (e :: es) s
        = upsertEntities lbl es (upsertNode lbl e s) from rfl,
      upsertEntities_edges lbl es, upsertNode_edges]

theorem upsertEntities_lookup_other (lbl : Str) :
    ∀ (es : List Entity) (s : Store) (k : NodeKey),
      (∀ e ∈ es, (lbl, e.entity_id) ≠ k) →
      alookup (upsertEntities lbl es s).nodes k = alookup s.nodes k
  | [], _, _, _ => rfl
  | e :: es, s, k, h => by
    rw [show upsertEntities lbl (e :: es) s
        = upsertEntities lbl es (upsertNode lbl e s) from rfl,
      upsertEntities_lookup_other lbl es _ k
        (fun x hx => h x (List.mem_cons_of_mem e hx)),
      alookup_upsertNode, if_neg (fun hx => h e (List.mem_cons_self e es) hx.symm)]

theorem upsertEntities_lookup_batch (lbl : Str) :
    ∀ (es : List Entity), (es.map Entity.entity_id).Nodup →
      ∀ (s : Store), ∀ e ∈ es,
        alookup (upsertEntities lbl es s).nodes (lbl, e.entity_id) =
          some { name := e.name,
                 refs := ((alookup s.nodes (lbl, e.entity_id)).map NodeRec.refs).getD []
                   ++ [e.ref] }
  | [], _, _, e, he => absurd he (by simp)
  | e0 :: es, hnd, s, e, he => by
    have hnd2 : (e0.entity_id :: es.map Entity.entity_id).Nodup := by simpa using hnd
    obtain ⟨h0, hnd'⟩ := List.nodup_cons.mp hnd2
    rcases List.mem_cons.mp he with rfl | he
    · rw [show upsertEntities lbl (e :: es) s
          = upsertEntities lbl es (upsertNode lbl e s) from rfl]
      rw [upsertEntities_lookup_other lbl es _ _ ?_]
      · rw [alookup_upsertNode, if_pos rfl]
      · intro x hx hx2
        apply h0
        have hid : x.entity_id = e.entity_id := congrArg Prod.snd hx2
        rw [← hid]
        exact List.mem_map_of_mem _ hx
    · have hne : e.entity_id ≠ e0.entity_id := by
        intro hx
        exact h0 (hx ▸ List.mem_map_of_mem _ he)
      rw [show upsertEntities lbl (e0 :: es) s
          = upsertEntities lbl es (upsertNode lbl e0 s) from rfl,
        upsertEntities_lookup_batch lbl es hnd' _ e he,
        alookup_upsertNode, if_neg (fun hx => hne (congrArg Prod.snd hx))]

theorem upsertEntities_map_fst_subset (lbl : Str) :
    ∀ (es : List Entity) (s : Store),
      (∀ e ∈ es, (lbl, e.entity_id) ∈ s.nodes.map Prod.fst) →
      (upsertEntities lbl es s).nodes.map Prod.fst = s.nodes.map Prod.fst
  | [], _, _ => rfl
  | e :: es, s, h => by
    have hkeys : (upsertNode lbl e s).nodes.map Prod.fst = s.nodes.map Prod.fst := by
      rw [upsertNode_map_fst, if_pos (h e (List.mem_cons_self e es))]
    rw [show upsertEntities lbl (e :: es) s
        = upsertEntities lbl es (upsertNode lbl e s) from rfl,
      upsertEntities_map_fst_subset lbl es _
        (fun x hx => by rw [hkeys]; exact h x (List.mem_cons_of_mem e hx)),
      hkeys]

theorem upsertEntities_batch_mem (lbl : Str) (es : List Entity)
    (hnd : (es.map Entity.entity_id).Nodup) (s : Store) :
    ∀ e ∈ es, (lbl, e.entity_id) ∈ (upsertEntities lbl es s).nodes.map Prod.fst := by
  intro e he
  by_contra hmem
  have h2 := (alookup_eq_none ((upsertEntities lbl es s).nodes) (lbl, e.entity_id)).mpr hmem
  rw [upsertEntities_lookup_batch lbl es hnd s e he] at h2
  cases h2

/-- C6: re-applying a page's entity upsert batch on a store that already
reflects one application leaves the edge set, the node-key list (hence node
existence) and every node name unchanged; nodes outside the batch are
untouched entirely, and the only change to each upserted node is that its ref
list grows by the batch entity's reference. -/
theorem claim_C6_idempotent_node_merge (s : Store) (lbl : Str) (es : List Entity)
    (hnd : (es.map Entity.entity_id).Nodup) :
    (upsertEntities lbl es (upsertEntities lbl es s)).edges =
      (upsertEntities lbl es s).edges ∧
    (upsertEntities lbl es (upsertEntities lbl es s)).nodes.map Prod.fst =
      (upsertEntities lbl es s).nodes.map Prod.fst ∧
    (∀ k : NodeKey, (∀ e ∈ es, (lbl, e.entity_id) ≠ k) →
      alookup (upsertEntities lbl es (upsertEntities lbl es s)).nodes k =
        alookup (upsertEntities lbl es s).nodes k) ∧
    (∀ e ∈ es, ∃ n1 : NodeRec,
      alookup (upsertEntities lbl es s).nodes (lbl, e.entity_id) = some n1 ∧
      alookup (upsertEntities lbl es (upsertEntities lbl es s)).nodes (lbl, e.entity_id) =
        some { name := n1.name, refs := n1.refs ++ [e.ref] }) := by
  refine ⟨upsertEntities_edges lbl es _,
    upsertEntities_map_fst_subset lbl es _ (upsertEntities_batch_mem lbl es hnd s),
    fun k hk => upsertEntities_lookup_other lbl es _ k hk,
    fun e he => ?_⟩
  have h1 := upsertEntities_lookup_batch lbl es hnd s e he
  have h2 := upsertEntities_lookup_batch lbl es hnd (upsertEntities lbl es s) e he
  refine ⟨_, h1, ?_⟩
  rw [h2, h1]
  simp

/-- Witness for C6: the Alice contribution applied twice from the empty store
keeps the node and appends exactly one more reference. -/
theorem claim_C6_witness :
    ∃ n1 : NodeRec,
      alookup (upsertEntities (str "Person") [mkEntity demoPage demoAlice]
          emptyStore).nodes (str "Person", (mkEntity demoPage demoAlice).entity_id) =
        some n1 ∧
      alookup (upsertEntities (str "Person") [mkEntity demoPage demoAlice]
          (upsertEntities (str "Person") [mkEntity demoPage demoAlice] emptyStore)).nodes
          (str "Person", (mkEntity demoPage demoAlice).entity_id) =
        some { name := n1.name, refs := n1.refs ++ [(mkEntity demoPage demoAlice).ref] } :=
  (claim_C6_idempotent_node_merge emptyStore (str "Person")
      [mkEntity demoPage demoAlice] (by decide)).2.2.2
    (mkEntity demoPage demoAlice) (List.mem_singleton.mpr rfl)

/-! ### Error propagation in the page loop -/

/-- C8 (amended): an error raised while processing a page propagates unchanged
and stops the run — the run returns the collaborator's error verbatim and
later pages go unprocessed — but the loop does not augment the terminating
error with the failing page's page_id. -/
theorem claim_C8_error_propagation :
    (∀ (step : Store → Page → Except Str Store) (s : Store) (p : Page)
        (ps : List Page) (e : Str),
      step s p = Except.error e → runPages step s (p :: ps) = Except.error e) ∧
    (∀ (step : Store → Page → Except Str Store) (s s2 : Store) (p : Page)
        (ps : List Page),
      step s p = Except.ok s2 → runPages step s (p :: ps) = runPages step s2 ps) := by
  constructor
  · intro step s p ps e h
    simp only [runPages]
    rw [h]
  · intro step s s2 p ps h
    simp only [runPages]
    rw [h]

/-- Witness for C8 (amended): a failing store write stops a one-page run with
the collaborator's error. -/
theorem claim_C8_witness :
    stepFail emptyStore demoPage = Except.error (str "connection refused") ∧
    runPages stepFail emptyStore [demoPage] = Except.error (str "connection refused") :=
  ⟨rfl, claim_C8_error_propagation.1 stepFail emptyStore demoPage []
    (str "connection refused") rfl⟩

/-- Counterexample for C8 as stated: the run that fails on the scenario page
terminates with the collaborator's error, and that user-visible error does not
mention the page_id of the page that was being processed. -/
theorem claim_C8_counterexample :
    runPages stepFail emptyStore [demoPage] = Except.error (str "connection refused") ∧
    hasSub demoPage.page_id (str "connection refused") = false :=
  ⟨rfl, by decide⟩

/-! ### The parse_pdf page loop -/

theorem splitAux_nil_of :
    ∀ (l acc : Str), splitAux l acc = [] → acc = [] ∧ ∀ c ∈ l, isPySpace c
  | [], acc, h => by
    by_cases ha : acc = []
    · exact ⟨ha, by simp⟩
    · rw [splitAux, if_neg ha] at h
      cases h
  | c :: l', acc, h => by
    by_cases hc : isPySpace c
    · by_cases ha : acc = []
      · rw [splitAux, if_pos hc, if_pos ha] at h
        obtain ⟨_, h2⟩ := splitAux_nil_of l' [] h
        refine ⟨ha, ?_⟩
        intro d hd
        rcases List.mem_cons.mp hd with rfl | hd
        · exact hc
        · exact h2 d hd
      · rw [splitAux, if_pos hc, if_neg ha] at h
        cases h
    · rw [splitAux, if_neg hc] at h
      obtain ⟨h1, _⟩ := splitAux_nil_of l' (c :: acc) h
      cases h1

theorem pyStrip_nil_of_allspace (l : Str) (h : ∀ c ∈ l, isPySpace c) :
    pyStrip l = [] := by
  have h1 : l.dropWhile isPySpace = [] := by
    induction l with
    | nil => rfl
    | cons c l' ih =>
      rw [List.dropWhile_cons, if_pos (h c (List.mem_cons_self c l'))]
      exact ih (fun d hd => h d (List.mem_cons_of_mem c hd))
  rw [pyStrip, h1]
  rfl

theorem pySplit_ne_nil_of_strip (t : Str) (h : pyStrip t ≠ []) : pySplit t ≠ [] := by
  intro h2
  obtain ⟨_, hall⟩ := splitAux_nil_of t [] h2
  exact h (pyStrip_nil_of_allspace t hall)

theorem joinSpace_ne_nil :
    ∀ (ts : List Str), ts ≠ [] → (∀ t ∈ ts, t ≠ []) → joinSpace ts ≠ []
  | [], hne, _ => absurd rfl hne
  | [t], _, h => by simpa [joinSpace] using h t (by simp)
  | t :: t2 :: ts', _, h => by
    rw [joinSpace_cons₂]
    intro hx
    rcases List.append_eq_nil.mp hx with ⟨_, h2⟩
    cases h2

theorem cleaned_text_props (t : Str) (h : pyStrip t ≠ []) :
    joinSpace (pySplit t) ≠ [] ∧
      norm_text (joinSpace (pySplit t)) = joinSpace (pySplit t) := by
  refine ⟨joinSpace_ne_nil _ (pySplit_ne_nil_of_strip t h) ?_, norm_text_idem t⟩
  intro x hx
  exact (pySplit_tokens t x hx).1

theorem parsePdfAux_mem (d su st : Str) :
    ∀ (ex : List (Option Str)) (n : Nat) (r : PdfPage),
      r ∈ parsePdfAux d su st n ex →
      r.text ≠ [] ∧ norm_text r.text = r.text ∧
      r.page_id = r.doc_id ++ str "#p" ++ fmt02 r.page_number ∧ r.doc_id = d ∧
      ∃ t : Str, some t ∈ ex ∧ pyStrip t ≠ [] ∧ r.text = joinSpace (pySplit t)
  | [], _, r, h => absurd h (by simp [parsePdfAux])
  | none :: ex', n, r, h => by
    simp only [parsePdfAux] at h
    obtain ⟨h1, h2, h3, h4, t, ht, hs, hteq⟩ := parsePdfAux_mem d su st ex' (n + 1) r h
    exact ⟨h1, h2, h3, h4, t, by simp [ht], hs, hteq⟩
  | some t0 :: ex', n, r, h => by
    simp only [parsePdfAux] at h
    by_cases hstrip : pyStrip t0 = []
    · rw [if_pos hstrip] at h
      obtain ⟨h1, h2, h3, h4, t, ht, hs, hteq⟩ := parsePdfAux_mem d su st ex' (n + 1) r h
      exact ⟨h1, h2, h3, h4, t, by simp [ht], hs, hteq⟩
    · rw [if_neg hstrip] at h
      rcases List.mem_cons.mp h with rfl | h
      · obtain ⟨hne, hfix⟩ := cleaned_text_props t0 hstrip
        exact ⟨hne, hfix, rfl, rfl, t0, by simp, hstrip, rfl⟩
      · obtain ⟨h1, h2, h3, h4, t, ht, hs, hteq⟩ := parsePdfAux_mem d su st ex' (n + 1) r h
        exact ⟨h1, h2, h3, h4, t, by simp [ht], hs, hteq⟩

/-- C10: every page record emitted by parse_pdf has text that is non-empty and
is a fixpoint of normalization (stripped, with whitespace runs collapsed to
single spaces), it originates from a page whose extracted text stripped
non-empty (None and whitespace-only pages are skipped, not emitted), and its
page_id is the doc_id followed by "#p" and the page number zero-padded to two
digits. -/
theorem claim_C10_emitted_pages (doc_id source_uri source_type : Str)
    (ex : List (Option Str)) (r : PdfPage)
    (hr : r ∈ parsePdfPages doc_id source_uri source_type ex) :
    r.text ≠ [] ∧ norm_text r.text = r.text ∧
    r.page_id = doc_id ++ str "#p" ++ fmt02 r.page_number ∧
    ∃ t : Str, some t ∈ ex ∧ pyStrip t ≠ [] ∧ r.text = joinSpace (pySplit t) := by
  obtain ⟨h1, h2, h3, h4, hex⟩ :=
    parsePdfAux_mem doc_id source_uri source_type ex 1 r hr
  refine ⟨h1, h2, ?_, hex⟩
  rw [h3, h4]

/-- Witness for C10: a three-page extraction where only the first page
survives, with its text cleaned and its page_id zero-padded. -/
theorem claim_C10_witness :
    (({ doc_id := str "D1", source_type := str "pdf", source_uri := str "file://d1.pdf",
        page_id := str "D1#p01", text := str "hello world", page_number := 1 } : PdfPage) ∈
      parsePdfPages (str "D1") (str "file://d1.pdf") (str "pdf")
        [some (str "  hello   world "), none, some (str "   ")]) ∧
    ((str "hello world" : Str) ≠ [] ∧
     norm_text (str "hello world") = str "hello world" ∧
     (str "D1#p01" : Str) = str "D1" ++ str "#p" ++ fmt02 1 ∧
     ∃ t : Str, some t ∈ [some (str "  hello   world "), none, some (str "   ")] ∧
       pyStrip t ≠ [] ∧ (str "hello world" : Str) = joinSpace (pySplit t)) :=
  ⟨by decide,
    claim_C10_emitted_pages (str "D1") (str "file://d1.pdf") (str "pdf")
      [some (str "  hello   world "), none, some (str "   ")]
      { doc_id := str "D1", source_type := str "pdf", source_uri := str "file://d1.pdf",
        page_id := str "D1#p01", text := str "hello world", page_number := 1 }
      (by decide)⟩

/-! ### The concrete scenario -/

/-- C5 (amended): on the spec's concrete scenario page the pipeline yields
exactly 3 deduplicated entities whose entity_ids are PERSON:alice, PERSON:bob
and LOC:paris (the category tag is embedded verbatim, not lowercased, and the
LOC tag is embedded as LOC, not as "location"), exactly 3 co-occurrence
pairs, and after applying the single page each stored node carries exactly
one reference. -/
theorem claim_C5_scenario :
    (uniqueMap demoPage demoMentions).map Prod.fst =
      [str "PERSON:alice", str "PERSON:bob", str "LOC:paris"] ∧
    (mkPairs demoPage (uniqueMap demoPage demoMentions)).length = 3 ∧
    (applyPage emptyStore demoPage demoMentions).nodes.map Prod.fst =
      [(str "Person", str "PERSON:alice"), (str "Person", str "PERSON:bob"),
       (str "Location", str "LOC:paris")] ∧
    (applyPage emptyStore demoPage demoMentions).nodes.map
      (fun kv => kv.2.refs.length) = [1, 1, 1] := by
  refine ⟨by decide, by decide, by decide, by decide⟩

/-- Counterexample for C5 as stated: the pipeline does not produce the
lowercased entity_ids the claim names; person:alice is not among the ids. -/
theorem claim_C5_counterexample :
    str "person:alice" ∉ (uniqueMap demoPage demoMentions).map Prod.fst ∧
    (uniqueMap demoPage demoMentions).map Prod.fst ≠
      [str "person:alice", str "person:bob", str "location:paris"] := by
  refine ⟨by decide, by decide⟩

/-! ### The edge upsert applied twice -/

theorem upsertNode_absent (lbl : Str) (e : Entity) (s : Store)
    (h : alookup s.nodes (lbl, e.entity_id) = none) :
    upsertNode lbl e s =
      { s with nodes :=
          s.nodes ++ [((lbl, e.entity_id), { name := e.name, refs := [e.ref] })] } := by
  unfold upsertNode
  split
  next n halt => rw [h] at halt; cases halt
  next => rfl

theorem upsertNode_present (lbl : Str) (e : Entity) (s : Store) (n : NodeRec)
    (h : alookup s.nodes (lbl, e.entity_id) = some n) :
    upsertNode lbl e s =
      { s with nodes :=
          (aupdate (fun n => { name := e.name, refs := n.refs ++ [e.ref] })
            (lbl, e.entity_id) s.nodes) } := by
  unfold upsertNode
  split
  next m halt => rfl
  next halt => rw [h] at halt; cases halt

theorem upsertEdgeRow_absent (ref : Str) (s : Store) (ka kb : NodeKey)
    (h : alookup s.edges (ka, kb) = none) :
    upsertEdgeRow ref s ka kb =
      { s with edges := s.edges ++ [((ka, kb), { count := 1, refs := [ref] })] } := by
  unfold upsertEdgeRow
  split
  next n halt => rw [h] at halt; cases halt
  next => rfl

theorem upsertEdgeRow_present (ref : Str) (s : Store) (ka kb : NodeKey) (c : EdgeRec)
    (h : alookup s.edges (ka, kb) = some c) :
    upsertEdgeRow ref s ka kb =
      { s with edges :=
          (aupdate (fun r2 => { count := r2.count + 1, refs := r2.refs ++ [ref] })
            (ka, kb) s.edges) } := by
  unfold upsertEdgeRow
  split
  next m halt => rfl
  next halt => rw [h] at halt; cases halt

theorem byLabel_two (e1 e2 : Entity) (s : Store) :
    (byLabel [e1, e2]).foldl (fun s g => upsertEntities g.1 g.2 s) s =
      upsertNode (labelFor e2.type) e2 (upsertNode (labelFor e1.type) e1 s) := by
  have h1 : byLabel [e1, e2] =
      addGroup [(labelFor e1.type, [e1])] (labelFor e2.type) e2 := rfl
  by_cases hl : labelFor e2.type = labelFor e1.type
  · have h2 : addGroup [(labelFor e1.type, [e1])] (labelFor e2.type) e2 =
        [(labelFor e1.type, [e1, e2])] := by
      simp [addGroup, alookup, aupdate, hl]
    rw [h1, h2, hl]
    rfl
  · have h2 : addGroup [(labelFor e1.type, [e1])] (labelFor e2.type) e2 =
        [(labelFor e1.type, [e1]), (labelFor e2.type, [e2])] := by
      simp [addGroup, alookup,
        (show ¬ (labelFor e1.type = labelFor e2.type) from fun hx => hl hx.symm)]
    rw [h1, h2]
    rfl

theorem upsertPair_pair (s : Store) (pr : PairRec) (ka kb : NodeKey) (n1 n2 : NodeRec)
    (hn : s.nodes = [(ka, n1), (kb, n2)])
    (ha1 : ka.2 = pr.a_id) (ha2 : ¬ (kb.2 = pr.a_id))
    (hb1 : kb.2 = pr.b_id) (hb2 : ¬ (ka.2 = pr.b_id)) :
    upsertPair s pr = upsertEdgeRow pr.ref s ka kb := by
  simp only [upsertPair]
  rw [hn]
  simp only [List.map_cons, List.map_nil]
  rw [show List.filter (fun k : NodeKey => decide (k.2 = pr.a_id)) [ka, kb] = [ka] from by
      simp [List.filter, ha1, ha2],
    show List.filter (fun k : NodeKey => decide (k.2 = pr.b_id)) [ka, kb] = [kb] from by
      simp [List.filter, hb1, hb2]]
  rfl

theorem upsertPair_pair_rev (s : Store) (pr : PairRec) (ka kb : NodeKey) (n1 n2 : NodeRec)
    (hn : s.nodes = [(kb, n2), (ka, n1)])
    (ha1 : ka.2 = pr.a_id) (ha2 : ¬ (kb.2 = pr.a_id))
    (hb1 : kb.2 = pr.b_id) (hb2 : ¬ (ka.2 = pr.b_id)) :
    upsertPair s pr = upsertEdgeRow pr.ref s ka kb := by
  simp only [upsertPair]
  rw [hn]
  simp only [List.map_cons, List.map_nil]
  rw [show List.filter (fun k : NodeKey => decide (k.2 = pr.a_id)) [kb, ka] = [ka] from by
      simp [List.filter, ha1, ha2],
    show List.filter (fun k : NodeKey => decide (k.2 = pr.b_id)) [kb, ka] = [kb] from by
      simp [List.filter, hb1, hb2]]
  rfl

/-- C1: for a page whose dedup step survives exactly two entities, applying
the page twice (the same run repeated) leaves exactly one RELATES_TO edge
object between the pair — never two — keyed in canonical order (smaller
entity id first), with count incremented to 2 and one page reference appended
per application. -/
theorem claim_C1_single_edge_per_pair (p : Page) (ms : List Mention) (e1 e2 : Entity)
    (hu : (uniqueMap p ms).map Prod.snd = [e1, e2]) :
    ∃ ka kb : NodeKey,
      ka.2 < kb.2 ∧
      ((ka.2 = e1.entity_id ∧ kb.2 = e2.entity_id) ∨
       (ka.2 = e2.entity_id ∧ kb.2 = e1.entity_id)) ∧
      (applyPage emptyStore p ms).edges =
        [((ka, kb), { count := 1, refs := [make_ref_simple p] })] ∧
      (applyPage (applyPage emptyStore p ms) p ms).edges =
        [((ka, kb), { count := 2, refs := [make_ref_simple p, make_ref_simple p] })] := by
  have hinv := uniqueMap_inv p ms
  have hnd := uniqueMap_keys_nodup p ms
  obtain ⟨kv1, kv2, hu2⟩ : ∃ kv1 kv2, uniqueMap p ms = [kv1, kv2] := by
    rcases hul : uniqueMap p ms with _ | ⟨a, _ | ⟨b, _ | ⟨c, rest⟩⟩⟩
    · rw [hul] at hu; cases hu
    · rw [hul] at hu; simp at hu
    · exact ⟨a, b, rfl⟩
    · rw [hul] at hu; simp at hu
  rw [hu2] at hu
  simp only [List.map_cons, List.map_nil, List.cons.injEq, and_true] at hu
  obtain ⟨hv1, hv2⟩ := hu
  have hk1 : kv1.1 = e1.entity_id := by
    have h := (hinv kv1 (by rw [hu2]; exact List.mem_cons_self _ _)).1
    rw [hv1] at h
    exact h
  have hk2 : kv2.1 = e2.entity_id := by
    have h := (hinv kv2 (by rw [hu2]; exact List.mem_cons_of_mem _ (List.mem_cons_self _ _))).1
    rw [hv2] at h
    exact h
  have hu3 : uniqueMap p ms = [(e1.entity_id, e1), (e2.entity_id, e2)] := by
    rw [hu2, show kv1 = (e1.entity_id, e1) from Prod.ext hk1 hv1,
      show kv2 = (e2.entity_id, e2) from Prod.ext hk2 hv2]
  have hx : e1.entity_id ≠ e2.entity_id := by
    rw [hu3] at hnd
    simp at hnd
    exact hnd
  have hx21 : ¬ (e2.entity_id = e1.entity_id) := fun h => hx h.symm
  have hK : ((labelFor e1.type, e1.entity_id) : NodeKey) ≠
      (labelFor e2.type, e2.entity_id) := fun hc => hx (congrArg Prod.snd hc)
  have hKs : ((labelFor e2.type, e2.entity_id) : NodeKey) ≠
      (labelFor e1.type, e1.entity_id) := fun hc => hK hc.symm
  have hpairs : mkPairs p [(e1.entity_id, e1), (e2.entity_id, e2)] =
      [{ a_id := if e1.entity_id ≤ e2.entity_id then e1.entity_id else e2.entity_id,
         b_id := if e1.entity_id ≤ e2.entity_id then e2.entity_id else e1.entity_id,
         ref := make_ref_simple p }] := by
    simp only [mkPairs, sortedEids, List.map_cons, List.map_nil, List.insertionSort,
      List.orderedInsert]
    by_cases hle : e1.entity_id ≤ e2.entity_id
    · rw [if_pos hle, if_pos hle, if_pos hle]
      simp [combos]
    · rw [if_neg hle, if_neg hle, if_neg hle]
      simp [combos]
  have happly : ∀ s : Store, applyPage s p ms =
      upsertEdges (upsertNode (labelFor e2.type) e2 (upsertNode (labelFor e1.type) e1 s))
        [{ a_id := if e1.entity_id ≤ e2.entity_id then e1.entity_id else e2.entity_id,
           b_id := if e1.entity_id ≤ e2.entity_id then e2.entity_id else e1.entity_id,
           ref := make_ref_simple p }] := by
    intro s
    simp only [applyPage]
    rw [hu3]
    simp only [List.map_cons, List.map_nil]
    rw [if_neg (List.cons_ne_nil e1 [e2]), byLabel_two, hpairs,
      if_neg (List.cons_ne_nil _ _)]
  have hS12 : upsertNode (labelFor e2.type) e2
      (upsertNode (labelFor e1.type) e1 emptyStore) =
      { nodes := [((labelFor e1.type, e1.entity_id), { name := e1.name, refs := [e1.ref] }),
                  ((labelFor e2.type, e2.entity_id), { name := e2.name, refs := [e2.ref] })],
        edges := [] } := by
    have h1 : upsertNode (labelFor e1.type) e1 emptyStore =
        { nodes := [((labelFor e1.type, e1.entity_id),
            { name := e1.name, refs := [e1.ref] })], edges := [] } := by
      rw [upsertNode_absent (labelFor e1.type) e1 emptyStore rfl]
      rfl
    have halt2 : alookup ({ nodes := [((labelFor e1.type, e1.entity_id),
        { name := e1.name, refs := [e1.ref] })], edges := [] } : Store).nodes
        (labelFor e2.type, e2.entity_id) = none := by
      simp [alookup, hK]
    rw [h1, upsertNode_absent (labelFor e2.type) e2 _ halt2]
    rfl
  have hsecondEnt : ∀ E : List ((NodeKey × NodeKey) × EdgeRec),
      upsertNode (labelFor e2.type) e2 (upsertNode (labelFor e1.type) e1
        { nodes := [((labelFor e1.type, e1.entity_id), { name := e1.name, refs := [e1.ref] }),
                    ((labelFor e2.type, e2.entity_id), { name := e2.name, refs := [e2.ref] })],
          edges := E }) =
      { nodes := [((labelFor e1.type, e1.entity_id),
            { name := e1.name, refs := [e1.ref, e1.ref] }),
          ((labelFor e2.type, e2.entity_id),
            { name := e2.name, refs := [e2.ref, e2.ref] })],
        edges := E } := by
    intro E
    have hlook1 : alookup ({ nodes := [((labelFor e1.type, e1.entity_id), { name := e1.name, refs := [e1.ref] }), ((labelFor e2.type, e2.entity_id), { name := e2.name, refs := [e2.ref] })], edges := E } : Store).nodes (labelFor e1.type, e1.entity_id) =
        some { name := e1.name, refs := [e1.ref] } := by
      simp [alookup]
    have h1 : upsertNode (labelFor e1.type) e1
        { nodes := [((labelFor e1.type, e1.entity_id), { name := e1.name, refs := [e1.ref] }),
                    ((labelFor e2.type, e2.entity_id), { name := e2.name, refs := [e2.ref] })],
          edges := E } =
        { nodes := [((labelFor e1.type, e1.entity_id),
              { name := e1.name, refs := [e1.ref, e1.ref] }),
            ((labelFor e2.type, e2.entity_id), { name := e2.name, refs := [e2.ref] })],
          edges := E } := by
      rw [upsertNode_present (labelFor e1.type) e1 _ _ hlook1]
      simp [aupdate, hKs]
    have hlook2 : alookup ({ nodes := [((labelFor e1.type, e1.entity_id), { name := e1.name, refs := [e1.ref, e1.ref] }), ((labelFor e2.type, e2.entity_id), { name := e2.name, refs := [e2.ref] })], edges := E } : Store).nodes (labelFor e2.type, e2.entity_id) =
        some { name := e2.name, refs := [e2.ref] } := by
      simp [alookup, hK]
    rw [h1, upsertNode_present (labelFor e2.type) e2 _ _ hlook2]
    simp [aupdate, hK, hKs]
  rcases lt_or_gt_of_ne hx with hlt | hlt
  · have hle : e1.entity_id ≤ e2.entity_id := le_of_lt hlt
    have hpr1 := upsertPair_pair
      { nodes := [((labelFor e1.type, e1.entity_id), { name := e1.name, refs := [e1.ref] }),
                  ((labelFor e2.type, e2.entity_id), { name := e2.name, refs := [e2.ref] })],
        edges := [] }
      { a_id := e1.entity_id, b_id := e2.entity_id, ref := make_ref_simple p }
      (labelFor e1.type, e1.entity_id) (labelFor e2.type, e2.entity_id)
      { name := e1.name, refs := [e1.ref] } { name := e2.name, refs := [e2.ref] }
      rfl rfl hx21 rfl hx
    have hfirst : applyPage emptyStore p ms =
        { nodes := [((labelFor e1.type, e1.entity_id), { name := e1.name, refs := [e1.ref] }),
                    ((labelFor e2.type, e2.entity_id), { name := e2.name, refs := [e2.ref] })],
          edges := [(((labelFor e1.type, e1.entity_id), (labelFor e2.type, e2.entity_id)),
            { count := 1, refs := [make_ref_simple p] })] } := by
      rw [happly, hS12, if_pos hle, if_pos hle]
      show upsertPair _ _ = _
      have hnoedge : alookup ({ nodes := [((labelFor e1.type, e1.entity_id), { name := e1.name, refs := [e1.ref] }), ((labelFor e2.type, e2.entity_id), { name := e2.name, refs := [e2.ref] })], edges := [] } : Store).edges ((labelFor e1.type, e1.entity_id), (labelFor e2.type, e2.entity_id)) = none := rfl
      rw [hpr1, upsertEdgeRow_absent _ _ _ _ hnoedge]
      rfl
    have hpr2 := upsertPair_pair
      { nodes := [((labelFor e1.type, e1.entity_id),
            { name := e1.name, refs := [e1.ref, e1.ref] }),
          ((labelFor e2.type, e2.entity_id), { name := e2.name, refs := [e2.ref, e2.ref] })],
        edges := [(((labelFor e1.type, e1.entity_id), (labelFor e2.type, e2.entity_id)),
          { count := 1, refs := [make_ref_simple p] })] }
      { a_id := e1.entity_id, b_id := e2.entity_id, ref := make_ref_simple p }
      (labelFor e1.type, e1.entity_id) (labelFor e2.type, e2.entity_id)
      { name := e1.name, refs := [e1.ref, e1.ref] } { name := e2.name, refs := [e2.ref, e2.ref] }
      rfl rfl hx21 rfl hx
    have hsecond : (applyPage (applyPage emptyStore p ms) p ms).edges =
        [(((labelFor e1.type, e1.entity_id), (labelFor e2.type, e2.entity_id)),
          { count := 2, refs := [make_ref_simple p, make_ref_simple p] })] := by
      rw [hfirst, happly, hsecondEnt, if_pos hle, if_pos hle]
      show (upsertPair _ _).edges = _
      have hedge : alookup ({ nodes := [((labelFor e1.type, e1.entity_id), { name := e1.name, refs := [e1.ref, e1.ref] }), ((labelFor e2.type, e2.entity_id), { name := e2.name, refs := [e2.ref, e2.ref] })], edges := [(((labelFor e1.type, e1.entity_id), (labelFor e2.type, e2.entity_id)), { count := 1, refs := [make_ref_simple p] })] } : Store).edges ((labelFor e1.type, e1.entity_id), (labelFor e2.type, e2.entity_id)) = some { count := 1, refs := [make_ref_simple p] } := by
        simp [alookup]
      rw [hpr2, upsertEdgeRow_present _ _ _ _ _ hedge]
      simp [aupdate]
    exact ⟨(labelFor e1.type, e1.entity_id), (labelFor e2.type, e2.entity_id),
      hlt, Or.inl ⟨rfl, rfl⟩, by rw [hfirst], hsecond⟩
  · have hle : ¬ (e1.entity_id ≤ e2.entity_id) := not_le_of_gt hlt
    have hpr1 := upsertPair_pair_rev
      { nodes := [((labelFor e1.type, e1.entity_id), { name := e1.name, refs := [e1.ref] }),
                  ((labelFor e2.type, e2.entity_id), { name := e2.name, refs := [e2.ref] })],
        edges := [] }
      { a_id := e2.entity_id, b_id := e1.entity_id, ref := make_ref_simple p }
      (labelFor e2.type, e2.entity_id) (labelFor e1.type, e1.entity_id)
      { name := e2.name, refs := [e2.ref] } { name := e1.name, refs := [e1.ref] }
      rfl rfl hx rfl hx21
    have hfirst : applyPage emptyStore p ms =
        { nodes := [((labelFor e1.type, e1.entity_id), { name := e1.name, refs := [e1.ref] }),
                    ((labelFor e2.type, e2.entity_id), { name := e2.name, refs := [e2.ref] })],
          edges := [(((labelFor e2.type, e2.entity_id), (labelFor e1.type, e1.entity_id)),
            { count := 1, refs := [make_ref_simple p] })] } := by
      rw [happly, hS12, if_neg hle, if_neg hle]
      show upsertPair _ _ = _
      have hnoedge : alookup ({ nodes := [((labelFor e1.type, e1.entity_id), { name := e1.name, refs := [e1.ref] }), ((labelFor e2.type, e2.entity_id), { name := e2.name, refs := [e2.ref] })], edges := [] } : Store).edges ((labelFor e2.type, e2.entity_id), (labelFor e1.type, e1.entity_id)) = none := rfl
      rw [hpr1, upsertEdgeRow_absent _ _ _ _ hnoedge]
      rfl
    have hpr2 := upsertPair_pair_rev
      { nodes := [((labelFor e1.type, e1.entity_id),
            { name := e1.name, refs := [e1.ref, e1.ref] }),
          ((labelFor e2.type, e2.entity_id), { name := e2.name, refs := [e2.ref, e2.ref] })],
        edges := [(((labelFor e2.type, e2.entity_id), (labelFor e1.type, e1.entity_id)),
          { count := 1, refs := [make_ref_simple p] })] }
      { a_id := e2.entity_id, b_id := e1.entity_id, ref := make_ref_simple p }
      (labelFor e2.type, e2.entity_id) (labelFor e1.type, e1.entity_id)
      { name := e2.name, refs := [e2.ref, e2.ref] } { name := e1.name, refs := [e1.ref, e1.ref] }
      rfl rfl hx rfl hx21
    have hsecond : (applyPage (applyPage emptyStore p ms) p ms).edges =
        [(((labelFor e2.type, e2.entity_id), (labelFor e1.type, e1.entity_id)),
          { count := 2, refs := [make_ref_simple p, make_ref_simple p] })] := by
      rw [hfirst, happly, hsecondEnt, if_neg hle, if_neg hle]
      show (upsertPair _ _).edges = _
      have hedge : alookup ({ nodes := [((labelFor e1.type, e1.entity_id), { name := e1.name, refs := [e1.ref, e1.ref] }), ((labelFor e2.type, e2.entity_id), { name := e2.name, refs := [e2.ref, e2.ref] })], edges := [(((labelFor e2.type, e2.entity_id), (labelFor e1.type, e1.entity_id)), { count := 1, refs := [make_ref_simple p] })] } : Store).edges ((labelFor e2.type, e2.entity_id), (labelFor e1.type, e1.entity_id)) = some { count := 1, refs := [make_ref_simple p] } := by
        simp [alookup]
      rw [hpr2, upsertEdgeRow_present _ _ _ _ _ hedge]
      simp [aupdate]
    exact ⟨(labelFor e2.type, e2.entity_id), (labelFor e1.type, e1.entity_id),
      hlt, Or.inr ⟨rfl, rfl⟩, by rw [hfirst], hsecond⟩

/-- Witness for C1: the scenario page restricted to its first two mentions
(one Alice, one Bob) survives as exactly two entities; applied twice it
leaves one edge with count 2 and two page references. -/
theorem claim_C1_witness :
    ((uniqueMap demoPage [demoAlice, demoBob]).map Prod.snd =
      [mkEntity demoPage demoAlice, mkEntity demoPage demoBob]) ∧
    (∃ ka kb : NodeKey,
      ka.2 < kb.2 ∧
      ((ka.2 = (mkEntity demoPage demoAlice).entity_id ∧
        kb.2 = (mkEntity demoPage demoBob).entity_id) ∨
       (ka.2 = (mkEntity demoPage demoBob).entity_id ∧
        kb.2 = (mkEntity demoPage demoAlice).entity_id)) ∧
      (applyPage emptyStore demoPage [demoAlice, demoBob]).edges =
        [((ka, kb), { count := 1, refs := [make_ref_simple demoPage] })] ∧
      (applyPage (applyPage emptyStore demoPage [demoAlice, demoBob])
          demoPage [demoAlice, demoBob]).edges =
        [((ka, kb),
          { count := 2, refs := [make_ref_simple demoPage, make_ref_simple demoPage] })]) :=
  ⟨by decide,
    claim_C1_single_edge_per_pair demoPage [demoAlice, demoBob]
      (mkEntity demoPage demoAlice) (mkEntity demoPage demoBob) (by decide)⟩
